import Mathlib

/-!
Verification of the BER/DER reader core of the yasna ASN.1 library
(src/basics/mod.rs and src/reader/mod.rs).

The Rust reader is shallowly embedded: bytes are natural numbers below 256,
the borrowed input slice together with the cursor becomes an explicit record
of state, and every fallible operation is a function from states to a result
paired with the state left behind (errors keep their state, because the Rust
engine is mutated in place and an early return leaves the mutations visible).
Machine integers (u64 / usize, both 64 bits wide here) are modelled as Nat
with the overflow checks of the source written out against 2 ^ 64.  A Rust
panic (slice out of range, checked arithmetic abort in a debug build) is a
distinguished outcome, separate from the five typed errors of the library.
-/

set_option maxRecDepth 10000

/-- The five error kinds of yasna (reader/error.rs via ASN1ErrorKind). -/
inductive ASN1ErrorKind where
  | Eof
  | Extra
  | Invalid
  | IntegerOverflow
  | StackOverflow
deriving DecidableEq, Repr

/-- Outcome channel of an embedded operation: a typed yasna error, or a Rust
panic (out-of-range slice index or checked-arithmetic abort).  The panic
constructor has no counterpart in the library's error enum; it marks the
places where the source can abort instead of returning an error. -/
inductive Fault where
  | err (k : ASN1ErrorKind)
  | panicked
deriving DecidableEq, Repr

deriving instance DecidableEq for Except

/-- BERMode from reader/mod.rs. -/
inductive BERMode where
  | Ber
  | Der
deriving DecidableEq, Repr

/-- TagClass from basics/mod.rs. -/
inductive TagClass where
  | Universal
  | Application
  | ContextSpecific
  | Private
deriving DecidableEq, Repr

/-- Tag from basics/mod.rs: a class paired with a u64 tag number. -/
structure Tag where
  tag_class : TagClass
  tag_number : Nat
deriving DecidableEq, Repr

/-- PC (primitive / constructed) from reader/mod.rs. -/
inductive PC where
  | Primitive
  | Constructed
deriving DecidableEq, Repr

def TAG_BOOLEAN : Tag := ⟨.Universal, 1⟩
def TAG_INTEGER : Tag := ⟨.Universal, 2⟩
def TAG_BITSTRING : Tag := ⟨.Universal, 3⟩
def TAG_OCTETSTRING : Tag := ⟨.Universal, 4⟩
def TAG_NULL : Tag := ⟨.Universal, 5⟩
def TAG_OID : Tag := ⟨.Universal, 6⟩
def TAG_SEQUENCE : Tag := ⟨.Universal, 16⟩
def TAG_SET : Tag := ⟨.Universal, 17⟩
def TAG_EOC : Tag := ⟨.Universal, 0⟩

/-- BitString from basics/mod.rs. -/
structure BitString where
  unused_bits : Nat
  buf : List Nat
deriving DecidableEq, Repr

/-- BitString::from_buf. -/
def BitString.from_buf (unused_bits : Nat) (buf : List Nat) : BitString :=
  ⟨unused_bits, buf⟩

/-- BitString::push.  The source takes the last byte with an unwrap; when
unused_bits is positive the buffer is nonempty in every state the library
builds, and the embedding reads a default 0 there instead of aborting. -/
def BitString.push (bs : BitString) (b : Bool) : BitString :=
  let p := if bs.unused_bits = 0 then (8, bs.buf ++ [0]) else (bs.unused_bits, bs.buf)
  let ub := p.1 - 1
  let last := p.2.getLastD 0
  ⟨ub, p.2.dropLast ++ [Nat.lor last ((if b then 1 else 0) <<< ub)]⟩

/-- The invariant of BitString recorded in the specification's data model:
fewer than 8 unused bits, and unused bits only when a byte is present. -/
def bsInvariant (bs : BitString) : Prop :=
  bs.unused_bits < 8 ∧ (0 < bs.unused_bits → bs.buf ≠ [])

instance (bs : BitString) : Decidable (bsInvariant bs) := by
  unfold bsInvariant; infer_instance

/-- BERReaderImpl from reader/mod.rs: the borrowed slice, the cursor, the
mode, and the recursion depth.  Narrowing the view (self.buf = &old_buf[..limit])
keeps the cursor absolute, so it is modelled by truncating the list. -/
structure RState where
  buf : List Nat
  pos : Nat
  mode : BERMode
  depth : Nat
deriving DecidableEq, Repr

/-- An embedded reader operation: the Rust methods mutate self and return a
Result, so the embedding returns both the outcome and the state left behind
(also on the error path, where the source's early return keeps mutations). -/
def M (α : Type) : Type := RState → Except Fault α × RState

def M.ret {α : Type} (a : α) : M α := fun s => (.ok a, s)

def M.thr {α : Type} (e : Fault) : M α := fun s => (.error e, s)

def M.bind {α β : Type} (c : M α) (k : α → M β) : M β := fun s =>
  match c s with
  | (.ok a, s1) => k a s1
  | (.error e, s1) => (.error e, s1)

/-- usize and u64 are 64 bits wide on the targets the crate supports. -/
def WORD : Nat := 2 ^ 64

def BER_READER_STACK_DEPTH : Nat := 100

/-- BERReaderImpl::new. -/
def RState.new (buf : List Nat) (mode : BERMode) : RState := ⟨buf, 0, mode, 0⟩

/-- BERReaderImpl::read_u8. -/
def read_u8 : M Nat := fun s =>
  if h : s.pos < s.buf.length then
    (.ok s.buf[s.pos], { s with pos := s.pos + 1 })
  else
    (.error (.err .Eof), s)

/-- BERReaderImpl::fetch_remaining_buffer.  The slice &buf[pos..] aborts when
pos exceeds the length; the engine never reaches such a state, but the
embedding keeps the panic outcome for faithfulness. -/
def fetch_remaining_buffer : M (List Nat) := fun s =>
  if s.buf.length < s.pos then (.error .panicked, s)
  else (.ok (s.buf.drop s.pos), { s with pos := s.buf.length })

/-- BERReaderImpl::end_of_buf. -/
def end_of_buf : M Unit := fun s =>
  if s.pos ≠ s.buf.length then (.error (.err .Extra), s) else (.ok (), s)

/-- TAG_CLASSES[(tagbyte >> 6)]: the fixed four-entry table.  The index is a
byte shifted right by 6, hence below 4; the catch-all arm is never reached on
byte input. -/
def tag_class_of (n : Nat) : TagClass :=
  match n with
  | 0 => .Universal
  | 1 => .Application
  | 2 => .ContextSpecific
  | _ => .Private

/-- PCS[((tagbyte >> 5) & 1)]. -/
def pc_of (n : Nat) : PC :=
  if n = 0 then .Primitive else .Constructed

/-- The long-form tag-number loop of read_identifier.  checked_mul against
u64 is the explicit bound test; fuel only bounds the iteration count and is
always called with at least the number of remaining bytes, so the zero-fuel
arm is unreachable (each iteration consumes one byte). -/
def tag_number_loop (fuel : Nat) (tag_number : Nat) : M Nat := fun s =>
  match read_u8 s with
  | (.error e, s1) => (.error e, s1)
  | (.ok b, s1) =>
    if WORD ≤ tag_number * 128 then
      (.error (.err .IntegerOverflow), s1)
    else
      let tn := tag_number * 128 + (b &&& 127)
      if b &&& 128 = 0 then (.ok tn, s1)
      else
        match fuel with
        | 0 => (.error (.err .Eof), s1)
        | fuel + 1 => tag_number_loop fuel tn s1

/-- BERReaderImpl::read_identifier. -/
def read_identifier : M (Tag × PC) := fun s =>
  match read_u8 s with
  | (.error e, s1) => (.error e, s1)
  | (.ok tagbyte, s1) =>
    let tc := tag_class_of (tagbyte >>> 6)
    let pc := pc_of ((tagbyte >>> 5) &&& 1)
    let tn := tagbyte &&& 31
    if tn = 31 then
      match tag_number_loop s1.buf.length 0 s1 with
      | (.error e, s2) => (.error e, s2)
      | (.ok tag_number, s2) =>
        if tag_number < 31 then (.error (.err .Invalid), s2)
        else (.ok (⟨tc, tag_number⟩, pc), s2)
    else
      (.ok (⟨tc, tn⟩, pc), s1)

/-- BERReaderImpl::end_of_contents. -/
def end_of_contents : M Unit := fun s =>
  match read_identifier s with
  | (.error e, s1) => (.error e, s1)
  | (.ok (tag, pc), s1) =>
    if tag ≠ TAG_EOC ∨ pc ≠ PC.Primitive then (.error (.err .Invalid), s1)
    else
      match read_u8 s1 with
      | (.error e, s2) => (.error e, s2)
      | (.ok b, s2) =>
        if b ≠ 0 then (.error (.err .Invalid), s2) else (.ok (), s2)

/-- The long-form byte loop of read_length: count iterations, each first
checking the usize accumulator (checked_mul, whose failure the source maps to
Eof) and then reading one byte. -/
def length_loop (count : Nat) (length : Nat) : M Nat := fun s =>
  match count with
  | 0 => (.ok length, s)
  | count + 1 =>
    if WORD ≤ length * 256 then (.error (.err .Eof), s)
    else
      match read_u8 s with
      | (.error e, s1) => (.error e, s1)
      | (.ok b, s1) => length_loop count (length * 256 + b) s1

/-- BERReaderImpl::read_length: none models the indefinite-length sentinel. -/
def read_length : M (Option Nat) := fun s =>
  match read_u8 s with
  | (.error e, s1) => (.error e, s1)
  | (.ok lbyte, s1) =>
    if lbyte = 128 then (.ok none, s1)
    else if lbyte = 255 then (.error (.err .Invalid), s1)
    else if lbyte &&& 128 = 0 then (.ok (some lbyte), s1)
    else
      match length_loop (lbyte &&& 127) 0 s1 with
      | (.error e, s2) => (.error e, s2)
      | (.ok length, s2) =>
        if s2.mode = BERMode.Der ∧ length < 128 then (.error (.err .Invalid), s2)
        else (.ok (some length), s2)

/-- BERReaderImpl::read_general, the bounded TLV entry point.  The depth test
precedes everything; a tag mismatch restores the cursor; the definite form
narrows the view (the usize addition pos + length is the checked arithmetic
of a debug build, hence the panic outcome at 2^64); after the callback the
definite form demands exhaustion and the indefinite form an end-of-contents
marker, and only then is the outer view restored. -/
def read_general {α : Type} (tag : Tag) (cb : PC → M α) : M α := fun s =>
  if BER_READER_STACK_DEPTH < s.depth then (.error (.err .StackOverflow), s)
  else
    match read_identifier s with
    | (.error e, s1) => (.error e, s1)
    | (.ok (tag2, pc), s1) =>
      if tag2 ≠ tag then (.error (.err .Invalid), { s1 with pos := s.pos })
      else
        match read_length s1 with
        | (.error e, s2) => (.error e, s2)
        | (.ok length_spec, s2) =>
          let old_buf := s2.buf
          let enter : RState → Except Fault α × RState := fun sN =>
            match cb pc { sN with depth := sN.depth + 1 } with
            | (.error e, s3) => (.error e, s3)
            | (.ok v, s3) =>
              let s4 : RState := { s3 with depth := s3.depth - 1 }
              let term := match length_spec with
                          | some _ => end_of_buf s4
                          | none => end_of_contents s4
              match term with
              | (.error e, s5) => (.error e, s5)
              | (.ok _, s5) => (.ok v, { s5 with buf := old_buf })
          match length_spec with
          | some length =>
            if WORD ≤ s2.pos + length then (.error .panicked, s2)
            else
              let limit := s2.pos + length
              if old_buf.length < limit then (.error (.err .Eof), s2)
              else enter { s2 with buf := old_buf.take limit }
          | none =>
            if pc ≠ PC.Constructed then (.error (.err .Invalid), s2)
            else if s2.mode = BERMode.Der then (.error (.err .Invalid), s2)
            else enter s2

/-- BERReaderImpl::read_optional: snapshot the cursor, run the callback, turn
a failure that left the cursor in place into absence. -/
def read_optional {α : Type} (cb : M α) : M (Option α) := fun s =>
  match cb s with
  | (.ok v, s1) => (.ok (some v), s1)
  | (.error e, s1) => if s.pos = s1.pos then (.ok none, s1) else (.error e, s1)

/-- BERReaderSeq::read_default: a present value equal to the default is a DER
canonicity violation. -/
def read_default {α : Type} [DecidableEq α] (default : α) (cb : M α) : M α := fun s =>
  match read_optional cb s with
  | (.error e, s1) => (.error e, s1)
  | (.ok (some result), s1) =>
    if s1.mode = BERMode.Der ∧ result = default then (.error (.err .Invalid), s1)
    else (.ok result, s1)
  | (.ok none, s1) => (.ok default, s1)

/-- The body of read_bool after fetch_remaining_buffer: length must be 1, and
DER restricts the byte to 0x00 / 0xFF. -/
def bool_decode (mode : BERMode) (buf : List Nat) : Except Fault Bool :=
  match buf with
  | [b] =>
    if mode = BERMode.Der ∧ b ≠ 0 ∧ b ≠ 255 then .error (.err .Invalid)
    else .ok (decide (b ≠ 0))
  | _ => .error (.err .Invalid)

/-- The callback of BERReader::read_bool. -/
def bool_cb (pc : PC) : M Bool := fun s =>
  if pc ≠ PC.Primitive then (.error (.err .Invalid), s)
  else
    match fetch_remaining_buffer s with
    | (.error e, s1) => (.error e, s1)
    | (.ok buf, s1) => (bool_decode s1.mode buf, s1)

/-- BERReader::read_bool; the optional tag is the reader's implicit-tag
channel consulted by BERReader::read_general (implicit_tag.unwrap_or(tag)). -/
def read_bool (imp : Option Tag) : M Bool :=
  read_general (imp.getD TAG_BOOLEAN) bool_cb

/-- Sign extension of one byte: buf[0] as i8 as i64. -/
def sext8 (b : Nat) : Int :=
  if b < 128 then (b : Int) else (b : Int) - 256

/-- The accumulation loop of read_i64.  The source computes
(x << 8) | (b as i64); the shifted value has a zero low byte, so the
bitwise or coincides with x * 256 + b, and for bodies of at most eight
bytes (which is all the loop ever sees) the i64 arithmetic cannot wrap. -/
def i64_loop (x : Int) (rest : List Nat) : Int :=
  match rest with
  | [] => x
  | b :: rest => i64_loop (x * 256 + (b : Int)) rest

/-- The body of read_i64 after fetch_remaining_buffer. -/
def i64_decode (buf : List Nat) : Except Fault Int :=
  match buf with
  | [] => .error (.err .Invalid)
  | [b] => .ok (sext8 b)
  | b0 :: b1 :: rest =>
    let x := sext8 b0 * 256 + (b1 : Int)
    if -128 ≤ x ∧ x < 128 then .error (.err .Invalid)
    else if 8 < (b0 :: b1 :: rest).length then .error (.err .IntegerOverflow)
    else .ok (i64_loop x rest)

/-- The callback of BERReader::read_i64. -/
def i64_cb (pc : PC) : M Int := fun s =>
  if pc ≠ PC.Primitive then (.error (.err .Invalid), s)
  else
    match fetch_remaining_buffer s with
    | (.error e, s1) => (.error e, s1)
    | (.ok buf, s1) => (i64_decode buf, s1)

/-- BERReader::read_i64. -/
def read_i64 (imp : Option Tag) : M Int :=
  read_general (imp.getD TAG_INTEGER) i64_cb

/-- The primitive body of read_bitstring.  An empty body yields the empty
bit string; otherwise byte 0 is the unused-bit count U and the source slices
buf[1 .. buf.len() - U/8].  When U/8 reaches the body length that range is
reversed or the subtraction underflows, and the slice aborts: the panic
outcome records exactly that condition. -/
def bits_decode (buf : List Nat) : Except Fault BitString :=
  match buf with
  | [] => .ok (BitString.from_buf 0 [])
  | b :: rest =>
    let remain := b
    if (b :: rest).length ≤ remain / 8 then .error .panicked
    else
      .ok (BitString.from_buf (remain % 8)
        (((b :: rest).take ((b :: rest).length - remain / 8)).drop 1))

/-- The callback of BERReader::read_bitstring: the constructed form is a
documented TODO and fails Invalid. -/
def bits_cb (pc : PC) : M BitString := fun s =>
  if pc = PC.Constructed then (.error (.err .Invalid), s)
  else
    match fetch_remaining_buffer s with
    | (.error e, s1) => (.error e, s1)
    | (.ok buf, s1) => (bits_decode buf, s1)

/-- BERReader::read_bitstring. -/
def read_bitstring (imp : Option Tag) : M BitString :=
  read_general (imp.getD TAG_BITSTRING) bits_cb

/-- The body of read_null after fetch_remaining_buffer. -/
def null_decode (buf : List Nat) : Except Fault Unit :=
  if buf ≠ [] then .error (.err .Invalid) else .ok ()

/-- The callback of BERReader::read_null. -/
def null_cb (pc : PC) : M Unit := fun s =>
  if pc ≠ PC.Primitive then (.error (.err .Invalid), s)
  else
    match fetch_remaining_buffer s with
    | (.error e, s1) => (.error e, s1)
    | (.ok buf, s1) => (null_decode buf, s1)

/-- BERReader::read_null. -/
def read_null (imp : Option Tag) : M Unit :=
  read_general (imp.getD TAG_NULL) null_cb

/-- The subidentifier loop of read_oid: every byte equal to 0x80 fails
Invalid; checked_mul against u64 fails IntegerOverflow; a byte with bit 7
clear closes the subidentifier, the first of which is split by the X.690
rule into two arcs. -/
def oid_loop (rest : List Nat) (ids : List Nat) (subid : Nat) : Except Fault (List Nat) :=
  match rest with
  | [] => .ok ids
  | b :: rest =>
    if b = 128 then .error (.err .Invalid)
    else if WORD ≤ subid * 128 then .error (.err .IntegerOverflow)
    else
      let subid := subid * 128 + (b &&& 127)
      if b &&& 128 = 0 then
        if ids = [] then
          let id0 := if subid < 40 then 0 else if subid < 80 then 1 else 2
          oid_loop rest [id0, subid - 40 * id0] 0
        else
          oid_loop rest (ids ++ [subid]) 0
      else
        oid_loop rest ids subid

/-- The body of read_oid after fetch_remaining_buffer: rejects an empty body
and a trailing byte with bit 7 set, then runs the subidentifier loop.  The
resulting ObjectIdentifier is its list of arcs. -/
def oid_decode (buf : List Nat) : Except Fault (List Nat) :=
  if buf = [] ∨ 128 ≤ buf.getLastD 0 then .error (.err .Invalid)
  else oid_loop buf [] 0

/-- The callback of BERReader::read_oid. -/
def oid_cb (pc : PC) : M (List Nat) := fun s =>
  if pc ≠ PC.Primitive then (.error (.err .Invalid), s)
  else
    match fetch_remaining_buffer s with
    | (.error e, s1) => (.error e, s1)
    | (.ok buf, s1) => (oid_decode buf, s1)

/-- BERReader::read_oid. -/
def read_oid (imp : Option Tag) : M (List Nat) :=
  read_general (imp.getD TAG_OID) oid_cb

/-- The sibling loop of the constructed arm of read_bytes_impl: repeatedly
try one child octet string through read_optional until absence.  Fuel bounds
the iteration count; each productive iteration consumes input. -/
def bytes_loop (child : M (List Nat)) (fuel : Nat) : M (List Nat) := fun s =>
  match fuel with
  | 0 => (.error (.err .Invalid), s)
  | fuel + 1 =>
    match read_optional child s with
    | (.error e, s1) => (.error e, s1)
    | (.ok none, s1) => (.ok [], s1)
    | (.ok (some chunk), s1) =>
      match bytes_loop child fuel s1 with
      | (.error e, s2) => (.error e, s2)
      | (.ok chunks, s2) => (.ok (chunk ++ chunks), s2)

/-- BERReader::read_bytes_impl, returning the bytes it appends to the output
vector.  The top-level call sees the reader's implicit tag; the recursive
children are fresh readers on TAG_OCTETSTRING.  Fuel bounds nesting and
sibling count, both limited by the input in every real run. -/
def read_bytes_impl (tag : Tag) (fuel : Nat) : M (List Nat) :=
  match fuel with
  | 0 => fun s => (.error (.err .Invalid), s)
  | fuel + 1 =>
    read_general tag (fun pc s =>
      match pc with
      | PC.Constructed =>
        if s.mode = BERMode.Der then (.error (.err .Invalid), s)
        else bytes_loop (read_bytes_impl TAG_OCTETSTRING fuel) (fuel + 1) s
      | PC.Primitive =>
        match fetch_remaining_buffer s with
        | (.error e, s1) => (.error e, s1)
        | (.ok buf, s1) => (.ok buf, s1))

/-- BERReader::read_bytes. -/
def read_bytes (imp : Option Tag) (fuel : Nat) : M (List Nat) :=
  read_bytes_impl (imp.getD TAG_OCTETSTRING) fuel

/-- BERReader::read_tagged (explicit tagging): enter a constructed wrapper
TLV and run the inner decoder on a fresh reader. -/
def read_tagged {α : Type} (imp : Option Tag) (tag : Tag) (cb : M α) : M α :=
  read_general (imp.getD tag) (fun pc s =>
    if pc ≠ PC.Constructed then (.error (.err .Invalid), s) else cb s)

/-- BERReader::read_sequence. -/
def read_sequence {α : Type} (imp : Option Tag) (cb : M α) : M α :=
  read_general (imp.getD TAG_SEQUENCE) (fun pc s =>
    if pc ≠ PC.Constructed then (.error (.err .Invalid), s) else cb s)

/-- BERReader::read_set; at this revision identical to read_sequence except
for the tag. -/
def read_set {α : Type} (imp : Option Tag) (cb : M α) : M α :=
  read_general (imp.getD TAG_SET) (fun pc s =>
    if pc ≠ PC.Constructed then (.error (.err .Invalid), s) else cb s)

/-- parse_ber_general: run the user callback on a fresh engine and demand
that the whole buffer was consumed. -/
def parse_ber_general {α : Type} (buf : List Nat) (mode : BERMode) (cb : M α) :
    Except Fault α :=
  match cb (RState.new buf mode) with
  | (.error e, _) => .error e
  | (.ok v, s1) =>
    match end_of_buf s1 with
    | (.error e, _) => .error e
    | (.ok _, _) => .ok v

/-- parse_ber. -/
def parse_ber {α : Type} (buf : List Nat) (cb : M α) : Except Fault α :=
  parse_ber_general buf BERMode.Ber cb

/-- parse_der. -/
def parse_der {α : Type} (buf : List Nat) (cb : M α) : Except Fault α :=
  parse_ber_general buf BERMode.Der cb

/-- Universal result type for decoder programs: one constructor per typed
decoder, plus absence and pairing for sequence bodies. -/
inductive Value where
  | vBool (b : Bool)
  | vInt (i : Int)
  | vBits (bs : BitString)
  | vBytes (l : List Nat)
  | vNull
  | vOid (arcs : List Nat)
  | vNone
  | vSome (v : Value)
  | vPair (a b : Value)
deriving DecidableEq, Repr

/-- Decoder programs built from the typed decode operations of the reader
API.  Prog true is a single-TLV decoder; Prog false is the body handed to a
sequence or set cursor, reading children in order with the cursor's
read_optional and read_default helpers. -/
inductive Prog : Bool → Type where
  | pBool : Prog true
  | pI64 : Prog true
  | pBits : Prog true
  | pBytes : Prog true
  | pNull : Prog true
  | pOid : Prog true
  | pTagged (tag : Tag) (p : Prog true) : Prog true
  | pImplicit (tag : Tag) (p : Prog true) : Prog true
  | pSeq (q : Prog false) : Prog true
  | pSet (q : Prog false) : Prog true
  | sNil : Prog false
  | sNext (p : Prog true) (rest : Prog false) : Prog false
  | sOpt (p : Prog true) (rest : Prog false) : Prog false
  | sDefault (d : Value) (p : Prog true) (rest : Prog false) : Prog false

def optValue : Option Value → Value
  | none => .vNone
  | some v => .vSome v

/-- Run a decoder program.  The Option Tag argument is the implicit-tag
channel of the reader handle; it is consulted by the next TLV entry and
cleared for nested readers, exactly as in the source.  Fuel only feeds
read_bytes_impl. -/
def interp (fuel : Nat) : {b : Bool} → Prog b → Option Tag → M Value
  | _, .pBool, imp => M.bind (read_bool imp) (fun b => M.ret (.vBool b))
  | _, .pI64, imp => M.bind (read_i64 imp) (fun i => M.ret (.vInt i))
  | _, .pBits, imp => M.bind (read_bitstring imp) (fun bs => M.ret (.vBits bs))
  | _, .pBytes, imp => M.bind (read_bytes imp fuel) (fun l => M.ret (.vBytes l))
  | _, .pNull, imp => M.bind (read_null imp) (fun _ => M.ret .vNull)
  | _, .pOid, imp => M.bind (read_oid imp) (fun l => M.ret (.vOid l))
  | _, .pTagged t p, imp => read_tagged imp t (interp fuel p none)
  | _, .pImplicit t p, imp => interp fuel p (some (imp.getD t))
  | _, .pSeq q, imp => read_sequence imp (interp fuel q none)
  | _, .pSet q, imp => read_set imp (interp fuel q none)
  | _, .sNil, _ => M.ret .vNull
  | _, .sNext p rest, _ =>
    M.bind (interp fuel p none) (fun v =>
      M.bind (interp fuel rest none) (fun vs => M.ret (.vPair v vs)))
  | _, .sOpt p rest, _ =>
    M.bind (read_optional (interp fuel p none)) (fun o =>
      M.bind (interp fuel rest none) (fun vs => M.ret (.vPair (optValue o) vs)))
  | _, .sDefault d p rest, _ =>
    M.bind (read_default d (interp fuel p none)) (fun v =>
      M.bind (interp fuel rest none) (fun vs => M.ret (.vPair v vs)))

/-- n nested indefinite-form SEQUENCE headers (30 80) closed by n
end-of-contents markers (00 00). -/
def nested_seq_input (n : Nat) : List Nat :=
  (List.replicate n [48, 128]).flatten ++ (List.replicate n [0, 0]).flatten

/-- A decoder that unconditionally opens one SEQUENCE per level: the shape of
a callback that recurses one level per layer of input.  The fuel-0 arm is
unreachable whenever fuel exceeds the depth the engine permits. -/
def rec_seq : Nat → M Unit
  | 0 => M.thr (.err .Invalid)
  | n + 1 => read_sequence none (rec_seq n)

/-- Big-endian unsigned value of a byte string. -/
def be_unsigned (l : List Nat) : Nat :=
  l.foldl (fun a b => a * 256 + b) 0

/-- Big-endian two's-complement value of a byte string (the specified meaning
of an INTEGER body). -/
def be_signed (l : List Nat) : Int :=
  match l with
  | [] => 0
  | b :: _ =>
    if 128 ≤ b then (be_unsigned l : Int) - 2 ^ (8 * l.length)
    else be_unsigned l

/-! Stepper lemmas: how each primitive reads the buffer. -/

theorem read_u8_ok {s : RState} (h : s.pos < s.buf.length) :
    read_u8 s = (.ok s.buf[s.pos], { s with pos := s.pos + 1 }) := by
  simp [read_u8, h]

theorem read_u8_eof {s : RState} (h : ¬ s.pos < s.buf.length) :
    read_u8 s = (.error (.err .Eof), s) := by
  simp [read_u8, h]

/-- Bridge from a suffix shape of the buffer to a single indexed byte. -/
theorem drop_cons_shape {l : List Nat} {p : Nat} {b : Nat} {rest : List Nat}
    (h : l.drop p = b :: rest) :
    ∃ hp : p < l.length, l[p] = b ∧ l.drop (p + 1) = rest := by
  have hp : p < l.length := by
    by_contra hc
    rw [List.drop_eq_nil_of_le (by omega)] at h
    exact List.noConfusion h
  refine ⟨hp, ?_⟩
  rw [List.drop_eq_getElem_cons hp] at h
  exact ⟨(List.cons.injEq _ _ _ _ ▸ h).1, (List.cons.injEq _ _ _ _ ▸ h).2⟩

theorem read_u8_of_drop {s : RState} {b : Nat} {rest : List Nat}
    (h : s.buf.drop s.pos = b :: rest) :
    read_u8 s = (.ok b, { s with pos := s.pos + 1 }) ∧
      s.buf.drop (s.pos + 1) = rest := by
  obtain ⟨hp, hb, hd⟩ := drop_cons_shape h
  exact ⟨by rw [read_u8_ok hp, hb], hd⟩

/-- Claim C1: the claim demands that every decode either returns a value or
one of the typed errors, naming read_bitstring on the input 03 01 FF.  The
code violates it: on that input the primitive bit-string body is the single
byte 0xFF, the unused-bit count 255 makes the slice bound
buf.len() - remain/8 underflow, and the decoder aborts instead of returning
a typed error, in BER mode and in DER mode alike. -/
theorem c1_bitstring_aborts :
    parse_ber [3, 1, 255] (read_bitstring none) = .error .panicked ∧
    parse_der [3, 1, 255] (read_bitstring none) = .error .panicked := by
  constructor <;> decide

/-- Claim C4: the claim says a body in which 0x80 occurs only as a non-first
byte of a multi-byte subidentifier (81 80 00, the arc 16384) decodes
successfully.  The code instead rejects the byte 0x80 wherever it occurs, so
the OID TLV 06 03 81 80 00 fails Invalid; the claim's positive example
2A 86 48 and the X.690 first-arc split do decode as stated. -/
theorem c4_oid_continuation_byte :
    parse_ber [6, 3, 129, 128, 0] (read_oid none) = .error (.err .Invalid) ∧
    parse_der [6, 3, 129, 128, 0] (read_oid none) = .error (.err .Invalid) ∧
    parse_ber [6, 3, 42, 134, 72] (read_oid none) = .ok [1, 2, 840] ∧
    parse_ber [6, 2, 42, 128] (read_oid none) = .error (.err .Invalid) := by
  refine ⟨by decide, by decide, by decide, by decide⟩

/-- A computation that can only move the cursor: buffer view, mode and depth
come out unchanged. -/
def OnlyPos {α : Type} (c : M α) : Prop :=
  ∀ s r s', c s = (r, s') → s' = { s with pos := s'.pos }

theorem onlyPos_read_u8 : OnlyPos read_u8 := by
  intro s r s' h
  unfold read_u8 at h
  split at h <;> cases h <;> rfl

theorem onlyPos_fetch : OnlyPos fetch_remaining_buffer := by
  intro s r s' h
  unfold fetch_remaining_buffer at h
  split at h <;> cases h <;> rfl

theorem onlyPos_end_of_buf : OnlyPos end_of_buf := by
  intro s r s' h
  unfold end_of_buf at h
  split at h <;> cases h <;> rfl

theorem onlyPos_tag_number_loop :
    ∀ fuel acc, OnlyPos (tag_number_loop fuel acc) := by
  intro fuel
  induction fuel with
  | zero =>
    intro acc s r s' h
    unfold tag_number_loop at h
    split at h
    next e s1 heq => cases h; exact onlyPos_read_u8 _ _ _ heq
    next b s1 heq =>
      split at h
      · cases h; exact onlyPos_read_u8 _ _ _ heq
      · split at h
        · cases h; exact onlyPos_read_u8 _ _ _ heq
        · cases h; exact onlyPos_read_u8 _ _ _ heq
  | succ f ih =>
    intro acc s r s' h
    unfold tag_number_loop at h
    split at h
    next e s1 heq => cases h; exact onlyPos_read_u8 _ _ _ heq
    next b s1 heq =>
      split at h
      · cases h; exact onlyPos_read_u8 _ _ _ heq
      · split at h
        · cases h; exact onlyPos_read_u8 _ _ _ heq
        · have h2 := ih _ _ _ _ h
          have h1 := onlyPos_read_u8 _ _ _ heq
          rw [h2, h1]

theorem onlyPos_read_identifier : OnlyPos read_identifier := by
  intro s r s' h
  unfold read_identifier at h
  split at h
  next e s1 heq => cases h; exact onlyPos_read_u8 _ _ _ heq
  next b s1 heq =>
    have h1 := onlyPos_read_u8 _ _ _ heq
    by_cases h31 : b &&& 31 = 31
    · simp only [h31, if_pos] at h
      split at h
      next e2 s2 heq2 =>
        cases h
        have h2 := onlyPos_tag_number_loop _ _ _ _ _ heq2
        rw [h2, h1]
      next tn s2 heq2 =>
        have h2 := onlyPos_tag_number_loop _ _ _ _ _ heq2
        split at h <;> cases h <;> rw [h2, h1]
    · simp only [h31, if_neg, if_false] at h
      cases h; exact h1

theorem onlyPos_end_of_contents : OnlyPos end_of_contents := by
  intro s r s' h
  unfold end_of_contents at h
  split at h
  next e s1 heq => cases h; exact onlyPos_read_identifier _ _ _ heq
  next t pc s1 heq =>
    have h1 := onlyPos_read_identifier _ _ _ heq
    split at h
    · cases h; exact h1
    · split at h
      next e2 s2 heq2 =>
        cases h
        have h2 := onlyPos_read_u8 _ _ _ heq2
        rw [h2, h1]
      next b s2 heq2 =>
        have h2 := onlyPos_read_u8 _ _ _ heq2
        split at h <;> cases h <;> rw [h2, h1]

theorem onlyPos_length_loop :
    ∀ count acc, OnlyPos (length_loop count acc) := by
  intro count
  induction count with
  | zero =>
    intro acc s r s' h
    unfold length_loop at h
    cases h; rfl
  | succ n ih =>
    intro acc s r s' h
    unfold length_loop at h
    split at h
    · cases h; rfl
    · split at h
      next e s1 heq => cases h; exact onlyPos_read_u8 _ _ _ heq
      next b s1 heq =>
        have h2 := ih _ _ _ _ h
        have h1 := onlyPos_read_u8 _ _ _ heq
        rw [h2, h1]

theorem onlyPos_read_length : OnlyPos read_length := by
  intro s r s' h
  unfold read_length at h
  split at h
  next e s1 heq => cases h; exact onlyPos_read_u8 _ _ _ heq
  next b s1 heq =>
    have h1 := onlyPos_read_u8 _ _ _ heq
    split at h
    · cases h; exact h1
    · split at h
      · cases h; exact h1
      · split at h
        · cases h; exact h1
        · split at h
          next e2 s2 heq2 =>
            cases h
            have h2 := onlyPos_length_loop _ _ _ _ _ heq2
            rw [h2, h1]
          next len s2 heq2 =>
            have h2 := onlyPos_length_loop _ _ _ _ _ heq2
            split at h <;> cases h <;> rw [h2, h1]

/-- A computation that never moves the cursor backwards. -/
def PosMono {α : Type} (c : M α) : Prop :=
  ∀ s r s', c s = (r, s') → s.pos ≤ s'.pos

theorem posMono_read_u8 : PosMono read_u8 := by
  intro s r s' h
  unfold read_u8 at h
  split at h <;> cases h <;> simp

theorem posMono_fetch : PosMono fetch_remaining_buffer := by
  intro s r s' h
  unfold fetch_remaining_buffer at h
  split at h <;> cases h <;> simp <;> omega

theorem posMono_end_of_buf : PosMono end_of_buf := by
  intro s r s' h
  unfold end_of_buf at h
  split at h <;> cases h <;> simp

theorem posMono_tag_number_loop :
    ∀ fuel acc, PosMono (tag_number_loop fuel acc) := by
  intro fuel
  induction fuel with
  | zero =>
    intro acc s r s' h
    unfold tag_number_loop at h
    split at h
    next e s1 heq => cases h; exact posMono_read_u8 _ _ _ heq
    next b s1 heq =>
      split at h
      · cases h; exact posMono_read_u8 _ _ _ heq
      · split at h
        · cases h; exact posMono_read_u8 _ _ _ heq
        · cases h; exact posMono_read_u8 _ _ _ heq
  | succ f ih =>
    intro acc s r s' h
    unfold tag_number_loop at h
    split at h
    next e s1 heq => cases h; exact posMono_read_u8 _ _ _ heq
    next b s1 heq =>
      split at h
      · cases h; exact posMono_read_u8 _ _ _ heq
      · split at h
        · cases h; exact posMono_read_u8 _ _ _ heq
        · exact le_trans (posMono_read_u8 _ _ _ heq) (ih _ _ _ _ h)

theorem posMono_read_identifier : PosMono read_identifier := by
  intro s r s' h
  unfold read_identifier at h
  split at h
  next e s1 heq => cases h; exact posMono_read_u8 _ _ _ heq
  next b s1 heq =>
    have h1 := posMono_read_u8 _ _ _ heq
    by_cases h31 : b &&& 31 = 31
    · simp only [h31, if_pos] at h
      split at h
      next e2 s2 heq2 =>
        cases h
        exact le_trans h1 (posMono_tag_number_loop _ _ _ _ _ heq2)
      next tn s2 heq2 =>
        have h2 := posMono_tag_number_loop _ _ _ _ _ heq2
        split at h <;> cases h <;> exact le_trans h1 h2
    · simp only [h31, if_neg, if_false] at h
      cases h; exact h1

/-- A successful identifier read consumes at least one byte. -/
theorem read_identifier_ok_pos {s : RState} {v : Tag × PC} {s' : RState}
    (h : read_identifier s = (.ok v, s')) : s.pos + 1 ≤ s'.pos := by
  unfold read_identifier at h
  split at h
  next e s1 heq => cases h
  next b s1 heq =>
    have h1 : s1.pos = s.pos + 1 := by
      unfold read_u8 at heq
      split at heq <;> cases heq <;> rfl
    by_cases h31 : b &&& 31 = 31
    · simp only [h31, if_pos] at h
      split at h
      next e2 s2 heq2 => cases h
      next tn s2 heq2 =>
        have h2 := posMono_tag_number_loop _ _ _ _ _ heq2
        split at h <;> cases h <;> omega
    · simp only [h31, if_neg, if_false] at h
      cases h; omega

theorem posMono_end_of_contents : PosMono end_of_contents := by
  intro s r s' h
  unfold end_of_contents at h
  split at h
  next e s1 heq => cases h; exact posMono_read_identifier _ _ _ heq
  next t pc s1 heq =>
    have h1 := posMono_read_identifier _ _ _ heq
    split at h
    · cases h; exact h1
    · split at h
      next e2 s2 heq2 =>
        cases h; exact le_trans h1 (posMono_read_u8 _ _ _ heq2)
      next b s2 heq2 =>
        have h2 := posMono_read_u8 _ _ _ heq2
        split at h <;> cases h <;> exact le_trans h1 h2

theorem posMono_length_loop :
    ∀ count acc, PosMono (length_loop count acc) := by
  intro count
  induction count with
  | zero =>
    intro acc s r s' h
    unfold length_loop at h
    cases h; exact le_refl _
  | succ n ih =>
    intro acc s r s' h
    unfold length_loop at h
    split at h
    · cases h; exact le_refl _
    · split at h
      next e s1 heq => cases h; exact posMono_read_u8 _ _ _ heq
      next b s1 heq =>
        exact le_trans (posMono_read_u8 _ _ _ heq) (ih _ _ _ _ h)

theorem posMono_read_length : PosMono read_length := by
  intro s r s' h
  unfold read_length at h
  split at h
  next e s1 heq => cases h; exact posMono_read_u8 _ _ _ heq
  next b s1 heq =>
    have h1 := posMono_read_u8 _ _ _ heq
    split at h
    · cases h; exact h1
    · split at h
      · cases h; exact h1
      · split at h
        · cases h; exact h1
        · split at h
          next e2 s2 heq2 =>
            cases h; exact le_trans h1 (posMono_length_loop _ _ _ _ _ heq2)
          next len s2 heq2 =>
            have h2 := posMono_length_loop _ _ _ _ _ heq2
            split at h <;> cases h <;> exact le_trans h1 h2

/-- On a tag mismatch, read_general restores the snapshot exactly: the state
handed back is the entry state. -/
theorem read_general_mismatch {α : Type} (tag : Tag) (cb : PC → M α)
    {s : RState} {t2 : Tag} {pc : PC} {s1 : RState}
    (hd : ¬ BER_READER_STACK_DEPTH < s.depth)
    (hid : read_identifier s = (.ok ((t2, pc)), s1)) (hne : t2 ≠ tag) :
    read_general tag cb s = (.error (.err .Invalid), s) := by
  have h1 := onlyPos_read_identifier _ _ _ hid
  have hs : ({ s1 with pos := s.pos } : RState) = s := by rw [h1]
  unfold read_general
  rw [if_neg hd, hid]
  simp only [if_pos hne, hs]

theorem opt_ok {α : Type} (f : M α) (s : RState) (v : α) (s1 : RState)
    (h : f s = (.ok v, s1)) : read_optional f s = (.ok (some v), s1) := by
  unfold read_optional
  rw [h]

theorem opt_none {α : Type} (f : M α) (s : RState) (e : Fault) (s1 : RState)
    (h : f s = (.error e, s1)) (hpos : s1.pos = s.pos) :
    read_optional f s = (.ok none, s1) := by
  unfold read_optional
  rw [h]
  show (if s.pos = s1.pos then ((.ok none : Except Fault (Option α)), s1)
    else (.error e, s1)) = _
  rw [if_pos hpos.symm]

theorem opt_err {α : Type} (f : M α) (s : RState) (e : Fault) (s1 : RState)
    (h : f s = (.error e, s1)) (hpos : s1.pos ≠ s.pos) :
    read_optional f s = (.error e, s1) := by
  unfold read_optional
  rw [h]
  show (if s.pos = s1.pos then ((.ok none : Except Fault (Option α)), s1)
    else (.error e, s1)) = _
  rw [if_neg (fun hc => hpos hc.symm)]

/-- Claim C6: read_optional snapshots the cursor; a callback success becomes
some, a callback failure that left the cursor at the snapshot becomes none
with that state kept, and any failure after the cursor advanced propagates
unchanged.  The last part records why the none case is sound: read_general
hands back exactly the entry state when the tag mismatches. -/
theorem c6_read_optional_commit :
    (∀ (α : Type) (f : M α) (s : RState) (v : α) (s1 : RState),
        f s = (.ok v, s1) → read_optional f s = (.ok (some v), s1)) ∧
    (∀ (α : Type) (f : M α) (s : RState) (e : Fault) (s1 : RState),
        f s = (.error e, s1) → s1.pos = s.pos →
        read_optional f s = (.ok none, s1) ∧ s1.pos = s.pos) ∧
    (∀ (α : Type) (f : M α) (s : RState) (e : Fault) (s1 : RState),
        f s = (.error e, s1) → s1.pos ≠ s.pos →
        read_optional f s = (.error e, s1)) ∧
    (∀ (α : Type) (tag : Tag) (cb : PC → M α) (s : RState)
        (t2 : Tag) (pc : PC) (s1 : RState),
        ¬ BER_READER_STACK_DEPTH < s.depth →
        read_identifier s = (.ok ((t2, pc)), s1) → t2 ≠ tag →
        read_general tag cb s = (.error (.err .Invalid), s)) := by
  refine ⟨?_, ?_, ?_, ?_⟩
  · intro α f s v s1 h
    exact opt_ok f s v s1 h
  · intro α f s e s1 h hpos
    exact ⟨opt_none f s e s1 h hpos, hpos⟩
  · intro α f s e s1 h hpos
    exact opt_err f s e s1 h hpos
  · intro α tag cb s t2 pc s1 hd hid hne
    exact read_general_mismatch tag cb hd hid hne

/-- Witness for C6 at concrete inputs: a NULL TLV where a boolean was
expected is absence with the state untouched; a boolean decode that consumed
its header before failing propagates Invalid; a good boolean is some. -/
theorem c6_read_optional_commit_witness :
    read_optional (read_bool none) (RState.new [5, 0] .Ber) =
      (.ok none, RState.new [5, 0] .Ber) ∧
    read_optional (read_bool none) (RState.new [33, 1, 255] .Ber) =
      (.error (.err .Invalid), ⟨[33, 1, 255], 2, .Ber, 1⟩) ∧
    read_optional (read_bool none) (RState.new [1, 1, 255] .Ber) =
      (.ok (some true), ⟨[1, 1, 255], 3, .Ber, 0⟩) ∧
    read_general TAG_BOOLEAN bool_cb (RState.new [5, 0] .Ber) =
      (.error (.err .Invalid), RState.new [5, 0] .Ber) := by
  refine ⟨?_, ?_, ?_, ?_⟩
  · exact (c6_read_optional_commit.2.1 Bool (read_bool none) _ (.err .Invalid)
      (RState.new [5, 0] .Ber) (by decide) (by decide)).1
  · exact c6_read_optional_commit.2.2.1 Bool (read_bool none) _ (.err .Invalid)
      ⟨[33, 1, 255], 2, .Ber, 1⟩ (by decide) (by decide)
  · exact c6_read_optional_commit.1 Bool (read_bool none) _ true
      ⟨[1, 1, 255], 3, .Ber, 0⟩ (by decide)
  · exact c6_read_optional_commit.2.2.2 Bool TAG_BOOLEAN bool_cb _
      ⟨.Universal, 5⟩ .Primitive ⟨[5, 0], 1, .Ber, 0⟩
      (by decide) (by decide) (by decide)

theorem parse_ok_consumed {α : Type} (cb : M α) (buf : List Nat) (mode : BERMode)
    (v : α) (h : parse_ber_general buf mode cb = .ok v) :
    ((cb (RState.new buf mode)).2).pos = ((cb (RState.new buf mode)).2).buf.length := by
  unfold parse_ber_general at h
  split at h
  next e s1 heq => cases h
  next v0 s1 heq =>
    rw [heq]
    split at h
    next e s2 heq2 => cases h
    next u s2 heq2 =>
      unfold end_of_buf at heq2
      split at heq2
      · cases heq2
      next hc => cases heq2; simpa using hc

theorem parse_unconsumed_extra {α : Type} (cb : M α) (buf : List Nat)
    (mode : BERMode) (v : α) (s1 : RState)
    (h : cb (RState.new buf mode) = (.ok v, s1)) (hne : s1.pos ≠ s1.buf.length) :
    parse_ber_general buf mode cb = .error (.err .Extra) := by
  unfold parse_ber_general
  rw [h]
  show (match end_of_buf s1 with
        | (.error e, _) => (.error e : Except Fault α)
        | (.ok _, _) => .ok v) = _
  unfold end_of_buf
  rw [if_pos hne]

theorem read_general_ok_buf {α : Type} {tag : Tag} {cb : PC → M α}
    {s : RState} {v : α} {s' : RState}
    (h : read_general tag cb s = (.ok v, s')) : s'.buf = s.buf := by
  unfold read_general at h
  split at h
  · cases h
  · split at h
    next e s1 heq => cases h
    next t2 pc s1 heq =>
      have h1 := onlyPos_read_identifier _ _ _ heq
      split at h
      · cases h
      · split at h
        next e s2 heq2 => cases h
        next ls s2 heq2 =>
          have h2 := onlyPos_read_length _ _ _ heq2
          have hbuf2 : s2.buf = s.buf := by rw [h2, h1]
          split at h
          next len =>
            simp only [] at h
            split at h
            · cases h
            · split at h
              · cases h
              · split at h
                next e s3 heq3 => cases h
                next v3 s3 heq3 =>
                  split at h
                  next e s5 heq5 => cases h
                  next u s5 heq5 => cases h; exact hbuf2
          next =>
            simp only [] at h
            split at h
            · cases h
            · split at h
              · cases h
              · split at h
                next e s3 heq3 => cases h
                next v3 s3 heq3 =>
                  split at h
                  next e s5 heq5 => cases h
                  next u s5 heq5 => cases h; exact hbuf2

theorem read_general_definite_extra {α : Type} (tag : Tag) (cbi : PC → M α)
    {s : RState} {pc : PC} {s1 : RState} {len : Nat} {s2 : RState}
    {v : α} {s3 : RState}
    (hd : ¬ BER_READER_STACK_DEPTH < s.depth)
    (hid : read_identifier s = (.ok ((tag, pc)), s1))
    (hlen : read_length s1 = (.ok (some len), s2))
    (hnw : ¬ WORD ≤ s2.pos + len)
    (hfit : ¬ s2.buf.length < s2.pos + len)
    (hcb : cbi pc { s2 with
        buf := s2.buf.take (s2.pos + len), depth := s2.depth + 1 } = (.ok v, s3))
    (hne : s3.pos ≠ s3.buf.length) :
    read_general tag cbi s =
      (.error (.err .Extra), { s3 with depth := s3.depth - 1 }) := by
  unfold read_general
  rw [if_neg hd, hid]
  simp only [if_neg (show ¬ tag ≠ tag from fun hc => hc rfl), ite_false,
    not_true_eq_false, if_false]
  rw [hlen]
  simp only []
  rw [if_neg hnw, if_neg hfit, hcb]
  simp only []
  unfold end_of_buf
  rw [if_pos (show ({ s3 with depth := s3.depth - 1 } : RState).pos ≠
    ({ s3 with depth := s3.depth - 1 } : RState).buf.length from hne)]

/-- Claim C8: the entry points succeed only when the user callback leaves the
cursor at the end of the current view, failing Extra otherwise; read_general
with a definite length fails Extra whenever the callback leaves the narrowed
view not fully consumed; a successful read_general restores the outer view,
so a successful parse leaves the cursor exactly at the input length. -/
theorem c8_full_consumption :
    (∀ (α : Type) (cb : M α) (buf : List Nat) (mode : BERMode) (v : α),
        parse_ber_general buf mode cb = .ok v →
        ((cb (RState.new buf mode)).2).pos = ((cb (RState.new buf mode)).2).buf.length) ∧
    (∀ (α : Type) (cb : M α) (buf : List Nat) (mode : BERMode) (v : α) (s1 : RState),
        cb (RState.new buf mode) = (.ok v, s1) → s1.pos ≠ s1.buf.length →
        parse_ber_general buf mode cb = .error (.err .Extra)) ∧
    (∀ (α : Type) (tag : Tag) (cb : PC → M α) (s : RState) (v : α) (s' : RState),
        read_general tag cb s = (.ok v, s') → s'.buf = s.buf) ∧
    (∀ (α : Type) (tag : Tag) (cbi : PC → M α) (s : RState) (pc : PC)
        (s1 : RState) (len : Nat) (s2 : RState) (v : α) (s3 : RState),
        ¬ BER_READER_STACK_DEPTH < s.depth →
        read_identifier s = (.ok ((tag, pc)), s1) →
        read_length s1 = (.ok (some len), s2) →
        ¬ WORD ≤ s2.pos + len →
        ¬ s2.buf.length < s2.pos + len →
        cbi pc { s2 with
          buf := s2.buf.take (s2.pos + len), depth := s2.depth + 1 } = (.ok v, s3) →
        s3.pos ≠ s3.buf.length →
        read_general tag cbi s =
          (.error (.err .Extra), { s3 with depth := s3.depth - 1 })) ∧
    (∀ (α : Type) (tag : Tag) (cb : PC → M α) (buf : List Nat) (mode : BERMode) (v : α),
        parse_ber_general buf mode (read_general tag cb) = .ok v →
        ((read_general tag cb (RState.new buf mode)).2).pos = buf.length) := by
  refine ⟨?_, ?_, ?_, ?_, ?_⟩
  · intro α cb buf mode v h
    exact parse_ok_consumed cb buf mode v h
  · intro α cb buf mode v s1 h hne
    exact parse_unconsumed_extra cb buf mode v s1 h hne
  · intro α tag cb s v s' h
    exact read_general_ok_buf h
  · intro α tag cbi s pc s1 len s2 v s3 hd hid hlen hnw hfit hcb hne
    exact read_general_definite_extra tag cbi hd hid hlen hnw hfit hcb hne
  · intro α tag cb buf mode v h
    have hp := parse_ok_consumed (read_general tag cb) buf mode v h
    rcases h1 : read_general tag cb (RState.new buf mode) with ⟨r1, s'⟩
    have hbuf : s'.buf = buf := by
      cases r1 with
      | error e =>
        exfalso
        unfold parse_ber_general at h
        rw [h1] at h
        cases h
      | ok v0 => exact read_general_ok_buf h1
    rw [h1] at hp
    simpa [hbuf] using hp

/-- Witness for C8: a boolean TLV with a trailing byte fails Extra; the same
TLV alone parses and leaves the cursor at the end; a callback that consumes
nothing inside a definite INTEGER TLV makes read_general fail Extra. -/
theorem c8_full_consumption_witness :
    parse_ber_general [1, 1, 255, 9] .Ber (read_bool none) = .error (.err .Extra) ∧
    ((read_general TAG_BOOLEAN bool_cb (RState.new [1, 1, 255] .Ber)).2).pos = 3 ∧
    read_general TAG_INTEGER (fun _ s => ((.ok 0, s) : Except Fault Nat × RState))
        (RState.new [2, 1, 5] .Ber) =
      (.error (.err .Extra), ⟨[2, 1, 5], 2, .Ber, 0⟩) := by
  refine ⟨?_, ?_, ?_⟩
  · exact c8_full_consumption.2.1 Bool (read_bool none) [1, 1, 255, 9] .Ber true
      ⟨[1, 1, 255, 9], 3, .Ber, 0⟩ (by decide) (by decide)
  · exact c8_full_consumption.2.2.2.2 Bool TAG_BOOLEAN bool_cb [1, 1, 255] .Ber true
      (by decide)
  · exact c8_full_consumption.2.2.2.1 Nat TAG_INTEGER
      (fun _ s => ((.ok 0, s) : Except Fault Nat × RState))
      (RState.new [2, 1, 5] .Ber) .Primitive ⟨[2, 1, 5], 1, .Ber, 0⟩ 1
      ⟨[2, 1, 5], 2, .Ber, 0⟩ 0 ⟨[2, 1, 5], 2, .Ber, 1⟩
      (by decide) (by decide) (by decide) (by decide) (by decide) (by decide) (by decide)

/-- A successful read_general got its value from the callback: there are
states and a PC bit under which the callback produced exactly that value. -/
theorem read_general_ok_cb {α : Type} {tag : Tag} {cb : PC → M α}
    {s : RState} {v : α} {s' : RState}
    (h : read_general tag cb s = (.ok v, s')) :
    ∃ pc s1 s2, cb pc s1 = (.ok v, s2) := by
  unfold read_general at h
  split at h
  · cases h
  · split at h
    next e s1 heq => cases h
    next t2 pc s1 heq =>
      split at h
      · cases h
      · split at h
        next e s2 heq2 => cases h
        next ls s2 heq2 =>
          split at h
          next len =>
            simp only [] at h
            split at h
            · cases h
            · split at h
              · cases h
              · split at h
                next e s3 heq3 => cases h
                next v3 s3 heq3 =>
                  split at h
                  next e s5 heq5 => cases h
                  next u s5 heq5 =>
                    cases h
                    exact ⟨pc, _, _, heq3⟩
          next =>
            simp only [] at h
            split at h
            · cases h
            · split at h
              · cases h
              · split at h
                next e s3 heq3 => cases h
                next v3 s3 heq3 =>
                  split at h
                  next e s5 heq5 => cases h
                  next u s5 heq5 =>
                    cases h
                    exact ⟨pc, _, _, heq3⟩

/-- A successful parse got its value from a successful run of the callback. -/
theorem parse_ok_run {α : Type} {cb : M α} {buf : List Nat} {mode : BERMode}
    {v : α} (h : parse_ber_general buf mode cb = .ok v) :
    ∃ s', cb (RState.new buf mode) = (.ok v, s') := by
  unfold parse_ber_general at h
  split at h
  next e s1 heq => cases h
  next v0 s1 heq =>
    split at h
    next e s2 heq2 => cases h
    next u s2 heq2 => cases h; exact ⟨s1, heq⟩

/-- Whatever bit string the primitive body decoder accepts stores the
unused-bit count reduced mod 8. -/
theorem bits_decode_unused {buf : List Nat} {bs : BitString}
    (h : bits_decode buf = .ok bs) : bs.unused_bits < 8 := by
  unfold bits_decode at h
  split at h
  · cases h; exact Nat.zero_lt_succ 7
  · simp only [] at h
    split at h
    · cases h
    · cases h
      exact Nat.mod_lt _ (by omega)

theorem bits_cb_unused {pc : PC} {s : RState} {bs : BitString} {s' : RState}
    (h : bits_cb pc s = (.ok bs, s')) : bs.unused_bits < 8 := by
  unfold bits_cb at h
  split at h
  · cases h
  · split at h
    next e s1 heq => cases h
    next buf s1 heq =>
      have : bits_decode buf = .ok bs := by
        have := congrArg Prod.fst h
        simpa using this
      exact bits_decode_unused this

/-- BitString.push preserves the data-model invariant. -/
theorem push_preserves_invariant (bs : BitString) (b : Bool)
    (h : bsInvariant bs) : bsInvariant (bs.push b) := by
  obtain ⟨h8, hne⟩ := h
  unfold BitString.push
  by_cases h0 : bs.unused_bits = 0 <;>
    simp only [h0, if_pos, if_neg, ite_true, ite_false, bsInvariant] <;>
    constructor
  · omega
  · intro _
    simp
  · omega
  · intro _
    simp

/-- Claim C5 counterexample: the decoder's public interface produces a
BitString violating the claimed invariant.  Decoding the bit-string TLV
03 01 03 (a one-byte primitive body holding the unused-bit count 3 and no
payload byte) succeeds and returns unused_bits = 3 with an empty byte
vector, so the conjunct that positive unused_bits implies a nonempty buffer
fails at the public interface. -/
theorem c5_bitstring_invariant_counterexample :
    parse_ber [3, 1, 3] (read_bitstring none) = .ok ⟨3, []⟩ ∧
    ¬ bsInvariant ⟨3, []⟩ := by
  constructor
  · decide
  · decide

/-- Claim C5 as amended: of the claimed invariant, read_bitstring guarantees
only the first conjunct, unused_bits < 8 (the source stores U mod 8); the
conjunct that positive unused_bits forces a nonempty buffer is not enforced
by the decoder (body 03 refutes it), while BitString.push does preserve the
full invariant. -/
theorem c5_bitstring_invariant_amended :
    (∀ (imp : Option Tag) (buf : List Nat) (mode : BERMode) (bs : BitString),
        parse_ber_general buf mode (read_bitstring imp) = .ok bs →
        bs.unused_bits < 8) ∧
    (∀ (bs : BitString) (b : Bool), bsInvariant bs → bsInvariant (bs.push b)) := by
  constructor
  · intro imp buf mode bs h
    obtain ⟨s', hrun⟩ := parse_ok_run h
    obtain ⟨pc, s1, s2, hcb⟩ := read_general_ok_cb hrun
    exact bits_cb_unused hcb
  · exact push_preserves_invariant

/-- Witness for C5: a two-byte body with unused-bit count 4 decodes with
unused_bits below 8, and push keeps the invariant of the empty bit string. -/
theorem c5_bitstring_invariant_amended_witness :
    (∀ bs : BitString, parse_ber [3, 2, 4, 240] (read_bitstring none) = .ok bs →
        bs.unused_bits < 8) ∧
    bsInvariant ((⟨0, []⟩ : BitString).push true) := by
  constructor
  · intro bs h
    exact c5_bitstring_invariant_amended.1 none [3, 2, 4, 240] .Ber bs h
  · exact c5_bitstring_invariant_amended.2 ⟨0, []⟩ true (by decide)

theorem be_unsigned_acc (l : List Nat) (a : Nat) :
    l.foldl (fun a b => a * 256 + b) a = a * 256 ^ l.length + be_unsigned l := by
  induction l generalizing a with
  | nil => simp [be_unsigned]
  | cons b t ih =>
    show List.foldl _ (a * 256 + b) t = _
    rw [ih]
    show _ = a * 256 ^ (t.length + 1) + List.foldl _ (0 * 256 + b) t
    rw [ih (0 * 256 + b)]
    ring

theorem be_unsigned_cons (b : Nat) (t : List Nat) :
    be_unsigned (b :: t) = b * 256 ^ t.length + be_unsigned t := by
  unfold be_unsigned
  simp only [List.foldl_cons]
  rw [show 0 * 256 + b = b by ring, be_unsigned_acc t b]
  rfl

theorem i64_loop_eq (rest : List Nat) (x : Int) :
    i64_loop x rest = x * 256 ^ rest.length + (be_unsigned rest : Int) := by
  induction rest generalizing x with
  | nil => simp [i64_loop, be_unsigned]
  | cons b t ih =>
    simp only [i64_loop, List.length_cons]
    rw [ih]
    push_cast [be_unsigned_cons b t]
    ring

theorem i64_assembles (b0 b1 : Nat) (rest : List Nat)
    (hmin : ¬ (-128 ≤ sext8 b0 * 256 + (b1 : Int) ∧ sext8 b0 * 256 + (b1 : Int) < 128))
    (hlen : (b0 :: b1 :: rest).length ≤ 8) :
    i64_decode (b0 :: b1 :: rest) = .ok (be_signed (b0 :: b1 :: rest)) := by
  unfold i64_decode
  simp only [] 
  rw [if_neg hmin, if_neg (by omega : ¬ 8 < (b0 :: b1 :: rest).length)]
  congr 1
  rw [i64_loop_eq]
  have h2 : be_unsigned (b0 :: b1 :: rest) =
      (b0 * 256 + b1) * 256 ^ rest.length + be_unsigned rest := by
    rw [be_unsigned_cons, be_unsigned_cons]
    simp only [List.length_cons]
    ring
  unfold be_signed sext8
  simp only []
  by_cases hb : b0 < 128
  · rw [if_pos hb, if_neg (by omega : ¬ 128 ≤ b0)]
    push_cast [h2]
    ring
  · rw [if_neg hb, if_pos (by omega : 128 ≤ b0)]
    push_cast [h2]
    simp only [List.length_cons]
    rw [show 8 * (rest.length + 1 + 1) = 8 * rest.length + 16 by ring, pow_add]
    rw [show (2 : Int) ^ (8 * rest.length) = 256 ^ rest.length by
      rw [pow_mul]; norm_num]
    ring

/-- Claim C9: read_i64 requires the primitive form, rejects an empty body,
sign-extends a single byte, rejects a redundant two-byte prefix (the
sign-extended first two bytes fitting signed 8-bit), overflows past eight
bytes, and otherwise assembles the body big-endian as a signed value. -/
theorem c9_read_i64 :
    i64_decode [] = .error (.err .Invalid) ∧
    (∀ (pc : PC) (s : RState), pc ≠ PC.Primitive →
        i64_cb pc s = (.error (.err .Invalid), s)) ∧
    (∀ b : Nat, i64_decode [b] = .ok (be_signed [b])) ∧
    (∀ (b0 b1 : Nat) (rest : List Nat),
        -128 ≤ sext8 b0 * 256 + (b1 : Int) ∧ sext8 b0 * 256 + (b1 : Int) < 128 →
        i64_decode (b0 :: b1 :: rest) = .error (.err .Invalid)) ∧
    (∀ (b0 b1 : Nat) (rest : List Nat),
        ¬ (-128 ≤ sext8 b0 * 256 + (b1 : Int) ∧ sext8 b0 * 256 + (b1 : Int) < 128) →
        8 < (b0 :: b1 :: rest).length →
        i64_decode (b0 :: b1 :: rest) = .error (.err .IntegerOverflow)) ∧
    (∀ (b0 b1 : Nat) (rest : List Nat),
        ¬ (-128 ≤ sext8 b0 * 256 + (b1 : Int) ∧ sext8 b0 * 256 + (b1 : Int) < 128) →
        (b0 :: b1 :: rest).length ≤ 8 →
        i64_decode (b0 :: b1 :: rest) = .ok (be_signed (b0 :: b1 :: rest))) ∧
    parse_der [2, 2, 0, 255] (read_i64 none) = .ok 255 ∧
    parse_der [2, 1, 255] (read_i64 none) = .ok (-1) ∧
    parse_der [2, 2, 0, 0] (read_i64 none) = .error (.err .Invalid) ∧
    parse_der [2, 1, 0] (read_i64 none) = .ok 0 := by
  refine ⟨rfl, ?_, ?_, ?_, ?_, ?_, by decide, by decide, by decide, by decide⟩
  · intro pc s hpc
    unfold i64_cb
    rw [if_pos hpc]
  · intro b
    unfold i64_decode be_signed sext8
    simp only []
    by_cases hb : b < 128
    · rw [if_pos hb, if_neg (by omega : ¬ 128 ≤ b)]
      simp [be_unsigned]
    · rw [if_neg hb, if_pos (by omega : 128 ≤ b)]
      simp [be_unsigned]
  · intro b0 b1 rest hmin
    unfold i64_decode
    simp only []
    rw [if_pos hmin]
  · intro b0 b1 rest hmin hlen
    unfold i64_decode
    simp only []
    rw [if_neg hmin, if_pos hlen]
  · intro b0 b1 rest hmin hlen
    exact i64_assembles b0 b1 rest hmin hlen

/-- Witness for C9 at concrete bytes: 00 FF assembles to 255 and FF alone
sign-extends to minus one through the general conjuncts. -/
theorem c9_read_i64_witness :
    i64_decode [0, 255] = .ok (be_signed [0, 255]) ∧
    i64_decode [255] = .ok (be_signed [255]) ∧
    i64_decode [0, 0] = .error (.err .Invalid) ∧
    i64_decode [1, 0, 0, 0, 0, 0, 0, 0, 0] = .error (.err .IntegerOverflow) ∧
    i64_cb .Constructed (RState.new [] .Ber) =
      (.error (.err .Invalid), RState.new [] .Ber) := by
  refine ⟨?_, ?_, ?_, ?_, ?_⟩
  · exact c9_read_i64.2.2.2.2.2.1 0 255 [] (by decide) (by decide)
  · exact c9_read_i64.2.2.1 255
  · exact c9_read_i64.2.2.2.1 0 0 [] (by decide)
  · exact c9_read_i64.2.2.2.2.1 1 0 [0, 0, 0, 0, 0, 0, 0] (by decide) (by decide)
  · exact c9_read_i64.2.1 .Constructed (RState.new [] .Ber) (by decide)

/-- Claim C10: the expected-tag test of read_general compares a Tag, which
holds only class and number; the decoded tag of a short-form identifier byte
is unchanged when bit 5 (primitive versus constructed) is set, so a
constructed-form BOOLEAN (byte 21) passes the tag test, consumes the
identifier and length octets, and only then fails Invalid on the PC check,
leaving the cursor advanced, which makes an enclosing read_optional
propagate the Invalid instead of answering none. -/
theorem c10_pc_ignored_in_tag_match :
    (∀ (b : Nat) (rest : List Nat) (mode : BERMode), b < 256 → b &&& 31 ≠ 31 →
        read_identifier ⟨b :: rest, 0, mode, 0⟩ =
          (.ok (⟨tag_class_of (b >>> 6), b &&& 31⟩, pc_of ((b >>> 5) &&& 1)),
            ⟨b :: rest, 1, mode, 0⟩) ∧
        tag_class_of ((b ||| 32) >>> 6) = tag_class_of (b >>> 6) ∧
        (b ||| 32) &&& 31 = b &&& 31 ∧
        pc_of (((b ||| 32) >>> 5) &&& 1) = PC.Constructed) ∧
    (∀ mode : BERMode, read_bool none ⟨[33, 1, 255], 0, mode, 0⟩ =
        (.error (.err .Invalid), ⟨[33, 1, 255], 2, mode, 1⟩)) ∧
    (∀ mode : BERMode, read_optional (read_bool none) ⟨[33, 1, 255], 0, mode, 0⟩ =
        (.error (.err .Invalid), ⟨[33, 1, 255], 2, mode, 1⟩)) := by
  refine ⟨?_, ?_, ?_⟩
  · intro b rest mode hb h31
    have hbits : ∀ c : Nat, c < 256 →
        tag_class_of ((c ||| 32) >>> 6) = tag_class_of (c >>> 6) ∧
        (c ||| 32) &&& 31 = c &&& 31 ∧
        pc_of (((c ||| 32) >>> 5) &&& 1) = PC.Constructed := by decide
    refine ⟨?_, (hbits b hb).1, (hbits b hb).2.1, (hbits b hb).2.2⟩
    unfold read_identifier
    rw [read_u8_ok (by simp)]
    simp only [List.getElem_cons_zero, h31, if_neg, if_false]
  · intro mode
    cases mode <;> decide
  · intro mode
    cases mode <;> decide

/-- Witness for C10: the boolean identifier byte 0x01 and its constructed
variant 0x21 decode to the same tag. -/
theorem c10_pc_ignored_in_tag_match_witness :
    read_identifier ⟨[1, 1, 255], 0, .Ber, 0⟩ =
      (.ok (⟨tag_class_of (1 >>> 6), 1 &&& 31⟩, pc_of ((1 >>> 5) &&& 1)),
        ⟨[1, 1, 255], 1, .Ber, 0⟩) ∧
    tag_class_of ((1 ||| 32) >>> 6) = tag_class_of (1 >>> 6) ∧
    (1 ||| 32) &&& 31 = 1 &&& 31 ∧
    pc_of (((1 ||| 32) >>> 5) &&& 1) = PC.Constructed := by
  exact c10_pc_ignored_in_tag_match.1 1 [1, 255] .Ber (by decide) (by decide)

theorem nested_seq_input_succ (n : Nat) :
    nested_seq_input (n + 1) = 48 :: 128 :: (nested_seq_input n ++ [0, 0]) := by
  unfold nested_seq_input
  rw [List.replicate_succ, List.replicate_succ' (n := n)]
  simp [List.flatten_append, List.flatten_cons]

theorem read_identifier_seq_header (s : RState) {rest : List Nat}
    (h : s.buf.drop s.pos = 48 :: rest) :
    read_identifier s =
      (.ok ((TAG_SEQUENCE, PC.Constructed)), { s with pos := s.pos + 1 }) ∧
      s.buf.drop (s.pos + 1) = rest := by
  obtain ⟨hu, hd⟩ := read_u8_of_drop h
  refine ⟨?_, hd⟩
  unfold read_identifier
  rw [hu]
  simp only []
  rw [if_neg (by decide : ¬ (48 : Nat) &&& 31 = 31)]
  rfl

theorem read_length_indefinite (s : RState) {rest : List Nat}
    (h : s.buf.drop s.pos = 128 :: rest) :
    read_length s = (.ok none, { s with pos := s.pos + 1 }) ∧
      s.buf.drop (s.pos + 1) = rest := by
  obtain ⟨hu, hd⟩ := read_u8_of_drop h
  refine ⟨?_, hd⟩
  unfold read_length
  rw [hu]
  simp only []
  simp

theorem rec_seq_stackoverflow :
    ∀ (j fuel : Nat) (tail : List Nat) (s : RState),
      s.buf.drop s.pos = nested_seq_input j ++ tail →
      s.mode = .Ber →
      s.depth + j = BER_READER_STACK_DEPTH + 1 →
      j + 1 ≤ fuel →
      rec_seq fuel s = (.error (.err .StackOverflow),
        { s with pos := s.pos + 2 * j, depth := BER_READER_STACK_DEPTH + 1 }) := by
  intro j
  induction j with
  | zero =>
    intro fuel tail s hdrop hmode hdepth hfuel
    match fuel, hfuel with
    | f + 1, _ =>
      show read_sequence none (rec_seq f) s = _
      unfold read_sequence read_general
      rw [if_pos (show BER_READER_STACK_DEPTH < s.depth by omega)]
      have hs : ({ s with pos := s.pos + 2 * 0, depth := BER_READER_STACK_DEPTH + 1 } : RState) = s := by
        have hd2 : s.depth = BER_READER_STACK_DEPTH + 1 := by omega
        simp [← hd2]
      rw [hs]
  | succ j ih =>
    intro fuel tail s hdrop hmode hdepth hfuel
    match fuel, hfuel with
    | f + 1, hfuel =>
      show read_sequence none (rec_seq f) s = _
      rw [nested_seq_input_succ] at hdrop
      simp only [List.cons_append, List.append_assoc] at hdrop
      obtain ⟨hid, hd1⟩ := read_identifier_seq_header s hdrop
      obtain ⟨hlen, hd2⟩ := read_length_indefinite { s with pos := s.pos + 1 } hd1
      unfold read_sequence read_general
      rw [if_neg (by unfold BER_READER_STACK_DEPTH at hdepth ⊢; omega)]
      rw [hid]
      simp only []
      rw [if_neg (by simp : ¬ TAG_SEQUENCE ≠ Option.getD none TAG_SEQUENCE)]
      rw [hlen]
      simp only []
      rw [if_neg (by simp : ¬ PC.Constructed ≠ PC.Constructed)]
      have hmode2 : ({ s with pos := s.pos + 1 + 1 } : RState).mode ≠ BERMode.Der := by
        simp [hmode]
      rw [if_neg hmode2]
      rw [if_neg (by simp : ¬ PC.Constructed ≠ PC.Constructed)]
      have hrec := ih f ([0, 0] ++ tail)
        ⟨s.buf, s.pos + 2, .Ber, s.depth + 1⟩
        (by simpa [List.append_assoc] using hd2) rfl
        (by show s.depth + 1 + j = BER_READER_STACK_DEPTH + 1; omega) (by omega)
      have heqs : ({ { s with pos := s.pos + 1 + 1 } with depth := ({ s with pos := s.pos + 1 + 1 } : RState).depth + 1 } : RState) = ⟨s.buf, s.pos + 2, s.mode, s.depth + 1⟩ := by
        simp
      have hstep : rec_seq f { { s with pos := s.pos + 1 + 1 } with depth := ({ s with pos := s.pos + 1 + 1 } : RState).depth + 1 } = (.error (.err .StackOverflow), { s with pos := s.pos + 2 * (j + 1), depth := BER_READER_STACK_DEPTH + 1 }) := by
        rw [heqs, hmode, hrec]
        have harith : s.pos + 2 + 2 * j = s.pos + 2 * (j + 1) := by ring
        simp [harith]
      rw [hstep]

/-- Claim C2: read_general refuses to enter a TLV once the depth counter
exceeds the constant 100, returning StackOverflow with the state untouched
(so before invoking the inner callback), and an input of 101 nested
indefinite-form SEQUENCE layers, decoded by a callback that recurses one
level per layer, parses to StackOverflow rather than exhausting the host
stack. -/
theorem c2_depth_limit :
    (∀ (α : Type) (tag : Tag) (cb : PC → M α) (s : RState),
        BER_READER_STACK_DEPTH < s.depth →
        read_general tag cb s = (.error (.err .StackOverflow), s)) ∧
    parse_ber (nested_seq_input 101) (rec_seq 150) = .error (.err .StackOverflow) := by
  constructor
  · intro α tag cb s h
    unfold read_general
    rw [if_pos h]
  · have h := rec_seq_stackoverflow 101 150 [] (RState.new (nested_seq_input 101) .Ber)
      (by simp [RState.new]) rfl (by decide) (by omega)
    unfold parse_ber parse_ber_general
    rw [h]

/-- Witness for C2: at depth 101 the depth test fires on the empty input. -/
theorem c2_depth_limit_witness :
    read_general TAG_SEQUENCE (fun _ s => ((.ok (), s) : Except Fault Unit × RState))
      ⟨[], 0, .Ber, 101⟩ = (.error (.err .StackOverflow), ⟨[], 0, .Ber, 101⟩) :=
  c2_depth_limit.1 Unit TAG_SEQUENCE _ _ (by decide)

theorem c3_indefinite_der {α : Type} (cb : PC → M α) (s : RState) (rest : List Nat)
    (hmode : s.mode = .Der) (hd : ¬ BER_READER_STACK_DEPTH < s.depth)
    (hdrop : s.buf.drop s.pos = 48 :: 128 :: rest) :
    read_general TAG_SEQUENCE cb s =
      (.error (.err .Invalid), { s with pos := s.pos + 1 + 1 }) := by
  obtain ⟨hid, hd1⟩ := read_identifier_seq_header s hdrop
  obtain ⟨hlen, hd2⟩ := read_length_indefinite { s with pos := s.pos + 1 } hd1
  unfold read_general
  rw [if_neg hd, hid]
  simp only []
  rw [if_neg (by simp : ¬ TAG_SEQUENCE ≠ TAG_SEQUENCE)]
  rw [hlen]
  simp only []
  rw [if_neg (by simp : ¬ PC.Constructed ≠ PC.Constructed)]
  rw [if_pos (show ({ s with pos := s.pos + 1 + 1 } : RState).mode = BERMode.Der from hmode)]

theorem c3_length_der {s : RState} {b : Nat} {rest : List Nat} {len : Nat} {s2 : RState}
    (hmode : s.mode = .Der) (hdrop : s.buf.drop s.pos = b :: rest)
    (h128 : b ≠ 128) (h255 : b ≠ 255) (hlong : ¬ b &&& 128 = 0)
    (hloop : length_loop (b &&& 127) 0 { s with pos := s.pos + 1 } = (.ok len, s2))
    (hlt : len < 128) :
    read_length s = (.error (.err .Invalid), s2) := by
  obtain ⟨hu, hd1⟩ := read_u8_of_drop hdrop
  unfold read_length
  rw [hu]
  simp only []
  rw [if_neg h128, if_neg h255, if_neg hlong, hloop]
  simp only []
  have hm2 : s2.mode = BERMode.Der := by
    have := onlyPos_length_loop _ _ _ _ _ hloop
    rw [this]
    exact hmode
  rw [if_pos ⟨hm2, hlt⟩]

theorem c3_default_der {α : Type} [inst : DecidableEq α] (d : α) (cb : M α)
    (s : RState) (s1 : RState)
    (hopt : read_optional cb s = (.ok (some d), s1)) (hmode : s1.mode = .Der) :
    read_default d cb s = (.error (.err .Invalid), s1) := by
  unfold read_default
  rw [hopt]
  simp only []
  rw [if_pos ⟨hmode, trivial⟩]

set_option maxHeartbeats 2000000 in
theorem c3_bool_der : ∀ b : Nat, b < 256 → b ≠ 0 → b ≠ 255 →
    parse_der [1, 1, b] (read_bool none) = .error (.err .Invalid) := by
  decide

set_option maxHeartbeats 2000000 in
/-- Claim C3 counterexample: the claim says any long-form length encoding
that could have used fewer bytes fails Invalid in DER, naming 82 00 80 (the
value 128 with a redundant leading zero length byte).  The decoder only
rejects long-form values below 128, so the octet-string TLV
04 82 00 80 followed by 128 content bytes is accepted in DER mode. -/
theorem c3_der_canonicity_counterexample :
    parse_der ([4, 130, 0, 128] ++ List.replicate 128 7) (read_bytes none 1) =
      .ok (List.replicate 128 7) ∧
    (Except.ok (List.replicate 128 7) :
      Except Fault (List Nat)) ≠ .error (.err .Invalid) := by
  constructor
  · decide
  · decide

/-- Claim C3 as amended: in DER mode the indefinite form, a long-form length
whose value is below 128, a boolean body other than 00/FF, a non-minimal
multi-byte integer, a constructed octet string, and a present DEFAULT-equal
field all fail Invalid; only the value test backs the long-form minimality
rule, so redundant leading zero length bytes with a value of 128 or more are
accepted (the counterexample). -/
theorem c3_der_canonicity_amended :
    (∀ (α : Type) (cb : PC → M α) (s : RState) (rest : List Nat),
        s.mode = .Der → ¬ BER_READER_STACK_DEPTH < s.depth →
        s.buf.drop s.pos = 48 :: 128 :: rest →
        read_general TAG_SEQUENCE cb s =
          (.error (.err .Invalid), { s with pos := s.pos + 1 + 1 })) ∧
    (∀ (s : RState) (b : Nat) (rest : List Nat) (len : Nat) (s2 : RState),
        s.mode = .Der → s.buf.drop s.pos = b :: rest →
        b ≠ 128 → b ≠ 255 → ¬ b &&& 128 = 0 →
        length_loop (b &&& 127) 0 { s with pos := s.pos + 1 } = (.ok len, s2) →
        len < 128 →
        read_length s = (.error (.err .Invalid), s2)) ∧
    (∀ b : Nat, b < 256 → b ≠ 0 → b ≠ 255 →
        parse_der [1, 1, b] (read_bool none) = .error (.err .Invalid)) ∧
    parse_der [2, 2, 0, 0] (read_i64 none) = .error (.err .Invalid) ∧
    parse_der [36, 3, 4, 1, 170] (read_bytes none 1) = .error (.err .Invalid) ∧
    (∀ (α : Type) (inst : DecidableEq α) (d : α) (cb : M α) (s s1 : RState),
        read_optional cb s = (.ok (some d), s1) → s1.mode = .Der →
        read_default d cb s = (.error (.err .Invalid), s1)) ∧
    parse_der [48, 3, 2, 1, 5]
        (read_sequence none (read_default (5 : Int) (read_i64 none))) =
      .error (.err .Invalid) ∧
    parse_der [48, 128, 2, 1, 1, 0, 0] (read_sequence none (read_i64 none)) =
      .error (.err .Invalid) ∧
    parse_der [4, 129, 127] (read_bytes none 1) = .error (.err .Invalid) := by
  refine ⟨?_, ?_, c3_bool_der, by decide, by decide, ?_, by decide, by decide, by decide⟩
  · intro α cb s rest hmode hd hdrop
    exact c3_indefinite_der cb s rest hmode hd hdrop
  · intro s b rest len s2 hmode hdrop h128 h255 hlong hloop hlt
    exact c3_length_der hmode hdrop h128 h255 hlong hloop hlt
  · intro α inst d cb s s1 hopt hmode
    exact @c3_default_der α inst d cb s s1 hopt hmode

/-- Witness for C3 at concrete inputs: an indefinite SEQUENCE header, a
non-canonical boolean and a long-form length of 127 each fail Invalid in
DER mode. -/
theorem c3_der_canonicity_amended_witness :
    read_general TAG_SEQUENCE (fun _ s => ((.ok 0, s) : Except Fault Nat × RState))
        ⟨[48, 128, 0, 0], 0, .Der, 0⟩ =
      (.error (.err .Invalid), ⟨[48, 128, 0, 0], 0 + 1 + 1, .Der, 0⟩) ∧
    parse_der [1, 1, 7] (read_bool none) = .error (.err .Invalid) ∧
    read_length ⟨[129, 127], 0, .Der, 0⟩ =
      (.error (.err .Invalid), ⟨[129, 127], 2, .Der, 0⟩) := by
  refine ⟨?_, ?_, ?_⟩
  · exact c3_der_canonicity_amended.1 Nat _ ⟨[48, 128, 0, 0], 0, .Der, 0⟩ [0, 0]
      rfl (by decide) (by decide)
  · exact c3_der_canonicity_amended.2.2.1 7 (by decide) (by decide) (by decide)
  · exact c3_der_canonicity_amended.2.1 ⟨[129, 127], 0, .Der, 0⟩ 129 [127] 127
      ⟨[129, 127], 2, .Der, 0⟩ rfl (by decide) (by decide) (by decide) (by decide)
      (by decide) (by decide)

/-! Transport from DER runs to BER runs.  toBer flips only the mode; the
lemmas below push a Der-mode execution across. -/

def toBer (s : RState) : RState := { s with mode := .Ber }

/-- Mode-independent operation: the run at the Ber twin of a state is the
Ber twin of the run. -/
def MEquiv {α : Type} (c : M α) : Prop :=
  ∀ s r s', c s = (r, s') → c (toBer s) = (r, toBer s')

/-- Mode is never written. -/
def ModePres {α : Type} (c : M α) : Prop :=
  ∀ s r s', c s = (r, s') → s'.mode = s.mode

/-- A Der-mode success also succeeds at the Ber twin, with the same value
and the twin state. -/
def OkT {α : Type} (c : M α) : Prop :=
  ∀ s, s.mode = .Der → ∀ v s', c s = (.ok v, s') →
    c (toBer s) = (.ok v, toBer s')

/-- A Der-mode failure that left the cursor in place also fails at the Ber
twin, at the twin state (the kind may differ). -/
def ErrT {α : Type} (c : M α) : Prop :=
  ∀ s, s.mode = .Der → ∀ e s', c s = (.error e, s') → s'.pos = s.pos →
    ∃ e', c (toBer s) = (.error e', toBer s')

/-- A success strictly advances the cursor (true of every TLV decoder). -/
def OkConsumes {α : Type} (c : M α) : Prop :=
  ∀ s v s', c s = (.ok v, s') → s.pos < s'.pos

theorem modePres_of_onlyPos {α : Type} {c : M α} (h : OnlyPos c) : ModePres c := by
  intro s r s' hr
  rw [h s r s' hr]

theorem okT_of_equiv {α : Type} {c : M α} (h : MEquiv c) : OkT c := by
  intro s _ v s' hr
  exact h s _ s' hr

theorem errT_of_equiv {α : Type} {c : M α} (h : MEquiv c) : ErrT c := by
  intro s _ e s' hr _
  exact ⟨e, h s _ s' hr⟩

theorem mequiv_read_u8 : MEquiv read_u8 := by
  intro s r s' h
  unfold read_u8 at h ⊢
  split at h <;> cases h
  next hlt => rw [dif_pos (show (toBer s).pos < (toBer s).buf.length from hlt)]; rfl
  next hlt => rw [dif_neg (show ¬ (toBer s).pos < (toBer s).buf.length from hlt)]

theorem mequiv_fetch : MEquiv fetch_remaining_buffer := by
  intro s r s' h
  unfold fetch_remaining_buffer at h ⊢
  split at h <;> cases h
  next hlt => rw [if_pos (show (toBer s).buf.length < (toBer s).pos from hlt)]
  next hlt => rw [if_neg (show ¬ (toBer s).buf.length < (toBer s).pos from hlt)]; rfl

theorem mequiv_end_of_buf : MEquiv end_of_buf := by
  intro s r s' h
  unfold end_of_buf at h ⊢
  split at h <;> cases h
  next hne => rw [if_pos (show (toBer s).pos ≠ (toBer s).buf.length from hne)]
  next hne => rw [if_neg (show ¬ (toBer s).pos ≠ (toBer s).buf.length from hne)]

theorem mequiv_tag_number_loop : ∀ fuel acc, MEquiv (tag_number_loop fuel acc) := by
  intro fuel
  induction fuel with
  | zero =>
    intro acc s r s' h
    unfold tag_number_loop at h ⊢
    split at h
    next e s1 heq =>
      cases h
      rw [mequiv_read_u8 _ _ _ heq]
    next b s1 heq =>
      rw [mequiv_read_u8 _ _ _ heq]
      simp only []
      split at h
      next hov => rw [if_pos hov]; cases h; rfl
      next hov =>
        rw [if_neg hov]
        split at h
        next hstop => rw [if_pos hstop]; cases h; rfl
        next hstop => rw [if_neg hstop]; cases h; rfl
  | succ f ih =>
    intro acc s r s' h
    unfold tag_number_loop at h ⊢
    split at h
    next e s1 heq =>
      cases h
      rw [mequiv_read_u8 _ _ _ heq]
    next b s1 heq =>
      rw [mequiv_read_u8 _ _ _ heq]
      simp only []
      split at h
      next hov => rw [if_pos hov]; cases h; rfl
      next hov =>
        rw [if_neg hov]
        split at h
        next hstop => rw [if_pos hstop]; cases h; rfl
        next hstop =>
          rw [if_neg hstop]
          exact ih _ _ _ _ h

theorem mequiv_read_identifier : MEquiv read_identifier := by
  intro s r s' h
  unfold read_identifier at h ⊢
  split at h
  next e s1 heq =>
    cases h
    rw [mequiv_read_u8 _ _ _ heq]
  next b s1 heq =>
    rw [mequiv_read_u8 _ _ _ heq]
    simp only []
    have hlen : (toBer s1).buf.length = s1.buf.length := rfl
    by_cases h31 : b &&& 31 = 31
    · simp only [h31, if_pos] at h ⊢
      split at h
      next e2 s2 heq2 =>
        cases h
        rw [hlen, mequiv_tag_number_loop _ _ _ _ _ heq2]
      next tn s2 heq2 =>
        rw [hlen, mequiv_tag_number_loop _ _ _ _ _ heq2]
        simp only []
        split at h
        next hlt => rw [if_pos hlt]; cases h; rfl
        next hlt => rw [if_neg hlt]; cases h; rfl
    · simp only [h31, if_neg, if_false] at h ⊢
      cases h; rfl

theorem mequiv_end_of_contents : MEquiv end_of_contents := by
  intro s r s' h
  unfold end_of_contents at h ⊢
  split at h
  next e s1 heq =>
    cases h
    rw [mequiv_read_identifier _ _ _ heq]
  next t pc s1 heq =>
    rw [mequiv_read_identifier _ _ _ heq]
    simp only []
    split at h
    next hbad => rw [if_pos hbad]; cases h; rfl
    next hbad =>
      rw [if_neg hbad]
      split at h
      next e2 s2 heq2 =>
        cases h
        rw [mequiv_read_u8 _ _ _ heq2]
      next b2 s2 heq2 =>
        rw [mequiv_read_u8 _ _ _ heq2]
        simp only []
        split at h
        next hz => rw [if_pos hz]; cases h; rfl
        next hz => rw [if_neg hz]; cases h; rfl

theorem mequiv_length_loop : ∀ count acc, MEquiv (length_loop count acc) := by
  intro count
  induction count with
  | zero =>
    intro acc s r s' h
    unfold length_loop at h ⊢
    cases h; rfl
  | succ n ih =>
    intro acc s r s' h
    unfold length_loop at h ⊢
    split at h
    next hov => rw [if_pos hov]; cases h; rfl
    next hov =>
      rw [if_neg hov]
      split at h
      next e s1 heq =>
        cases h
        rw [mequiv_read_u8 _ _ _ heq]
      next b s1 heq =>
        rw [mequiv_read_u8 _ _ _ heq]
        simp only []
        exact ih _ _ _ _ h

/-- A successful length read consumes at least one byte. -/
theorem read_length_ok_pos {s : RState} {v : Option Nat} {s' : RState}
    (h : read_length s = (.ok v, s')) : s.pos + 1 ≤ s'.pos := by
  unfold read_length at h
  split at h
  next e s1 heq => cases h
  next b s1 heq =>
    have h1 : s1.pos = s.pos + 1 := by
      unfold read_u8 at heq
      split at heq <;> cases heq <;> rfl
    split at h
    · cases h; omega
    · split at h
      · cases h
      · split at h
        · cases h; omega
        · split at h
          next e2 s2 heq2 => cases h
          next len s2 heq2 =>
            have h2 := posMono_length_loop _ _ _ _ _ heq2
            split at h <;> cases h <;> omega

theorem okT_read_length : OkT read_length := by
  intro s hmode v s' h
  unfold read_length at h ⊢
  split at h
  next e s1 heq => cases h
  next b s1 heq =>
    rw [mequiv_read_u8 _ _ _ heq]
    simp only []
    split at h
    next h128 => rw [if_pos h128]; cases h; rfl
    next h128 =>
      rw [if_neg h128]
      split at h
      next h255 => cases h
      next h255 =>
        rw [if_neg h255]
        split at h
        next hshort => rw [if_pos hshort]; cases h; rfl
        next hshort =>
          rw [if_neg hshort]
          split at h
          next e2 s2 heq2 => cases h
          next len s2 heq2 =>
            rw [mequiv_length_loop _ _ _ _ _ heq2]
            simp only []
            split at h
            next hder => cases h
            next hder =>
              rw [if_neg (show ¬ ((toBer s2).mode = BERMode.Der ∧ len < 128) from
                fun hc => by exact absurd hc.1 (by simp [toBer]))]
              cases h
              rfl

theorem errT_read_length : ErrT read_length := by
  intro s hmode e s' h hpos
  unfold read_length at h
  split at h
  next e1 s1 heq =>
    cases h
    exact ⟨e, by
      unfold read_length
      rw [mequiv_read_u8 _ _ _ heq]⟩
  next b s1 heq =>
    have h1 : s1.pos = s.pos + 1 := by
      unfold read_u8 at heq
      split at heq <;> cases heq <;> rfl
    split at h
    · cases h
    · split at h
      · cases h; omega
      · split at h
        · cases h
        · split at h
          next e2 s2 heq2 =>
            cases h
            have h2 := posMono_length_loop _ _ _ _ _ heq2
            omega
          next len s2 heq2 =>
            have h2 := posMono_length_loop _ _ _ _ _ heq2
            split at h <;> cases h <;> omega


theorem toBer_buf (s : RState) : (toBer s).buf = s.buf := rfl
theorem toBer_pos (s : RState) : (toBer s).pos = s.pos := rfl
theorem toBer_mode (s : RState) : (toBer s).mode = BERMode.Ber := rfl
theorem toBer_depth (s : RState) : (toBer s).depth = s.depth := rfl

theorem okT_read_general {α : Type} (tag : Tag) (cb : PC → M α)
    (hcbT : ∀ pc, OkT (cb pc)) : OkT (read_general tag cb) := by
  intro s hmode v v_s' h
  unfold read_general at h ⊢
  split at h
  · cases h
  next hd =>
    rw [if_neg (show ¬ BER_READER_STACK_DEPTH < (toBer s).depth from hd)]
    split at h
    next e s1 heq => cases h
    next t2 pc s1 heq =>
      rw [mequiv_read_identifier _ _ _ heq]
      simp only []
      have hm1 : s1.mode = BERMode.Der := by
        rw [onlyPos_read_identifier _ _ _ heq]; exact hmode
      split at h
      · cases h
      next hne =>
        rw [if_neg hne]
        split at h
        next e s2 heq2 => cases h
        next ls s2 heq2 =>
          rw [okT_read_length s1 hm1 ls s2 heq2]
          simp only [] at h ⊢
          have hm2 : s2.mode = BERMode.Der := by
            rw [onlyPos_read_length _ _ _ heq2]; exact hm1
          split at h
          next len =>
            split at h
            next hnw => cases h
            next hnw =>
              rw [if_neg (show ¬ WORD ≤ (toBer s2).pos + len from hnw)]
              split at h
              next hfit => cases h
              next hfit =>
                rw [if_neg (show ¬ (toBer s2).buf.length < (toBer s2).pos + len from hfit)]
                simp only [toBer_buf, toBer_pos, toBer_mode, toBer_depth]
                split at h
                next e s3 heq3 => cases h
                next v3 s3 heq3 =>
                  have hcb2 : cb pc { buf := List.take (s2.pos + len) s2.buf, pos := s2.pos, mode := BERMode.Ber, depth := s2.depth + 1 } = (.ok v3, toBer s3) := hcbT pc { buf := List.take (s2.pos + len) s2.buf, pos := s2.pos, mode := s2.mode, depth := s2.depth + 1 } hm2 v3 s3 heq3
                  rw [hcb2]
                  simp only [toBer_buf, toBer_pos, toBer_mode, toBer_depth]
                  split at h
                  next e s5 heq5 => cases h
                  next u s5 heq5 =>
                    have hend2 : end_of_buf { buf := s3.buf, pos := s3.pos, mode := BERMode.Ber, depth := s3.depth - 1 } = (.ok u, toBer s5) := mequiv_end_of_buf _ _ _ heq5
                    rw [hend2]
                    simp only [toBer_buf, toBer_pos, toBer_mode, toBer_depth]
                    cases h
                    rfl
          next =>
            by_cases hpc : pc ≠ PC.Constructed
            · rw [if_pos hpc] at h
              cases h
            · rw [if_neg hpc, if_pos hm2] at h
              cases h

theorem posMono_read_general {α : Type} (tag : Tag) (cb : PC → M α)
    (hcb : ∀ pc, PosMono (cb pc)) : PosMono (read_general tag cb) := by
  intro s r s' h
  unfold read_general at h
  split at h
  · cases h; exact le_refl _
  next hd =>
    split at h
    next e s1 heq => cases h; exact posMono_read_identifier _ _ _ heq
    next t2 pc s1 heq =>
      have h1 := posMono_read_identifier _ _ _ heq
      split at h
      · cases h; exact le_refl _
      next hne =>
        split at h
        next e s2 heq2 => cases h; exact le_trans h1 (posMono_read_length _ _ _ heq2)
        next ls s2 heq2 =>
          have h2 := le_trans h1 (posMono_read_length _ _ _ heq2)
          simp only [] at h
          split at h
          next len =>
            split at h
            · cases h; exact h2
            · split at h
              · cases h; exact h2
              · split at h
                next e s3 heq3 =>
                  cases h
                  have h3 := hcb pc _ _ _ heq3
                  simp only [] at h3
                  omega
                next v3 s3 heq3 =>
                  have h3 := hcb pc _ _ _ heq3
                  simp only [] at h3
                  split at h
                  next e s5 heq5 =>
                    cases h
                    have h5 := posMono_end_of_buf _ _ _ heq5
                    simp only [] at h5
                    omega
                  next u s5 heq5 =>
                    have h5 := posMono_end_of_buf _ _ _ heq5
                    simp only [] at h5
                    cases h
                    simp only []
                    omega
          next =>
            split at h
            · cases h; exact h2
            · split at h
              · cases h; exact h2
              · split at h
                next e s3 heq3 =>
                  cases h
                  have h3 := hcb pc _ _ _ heq3
                  simp only [] at h3
                  omega
                next v3 s3 heq3 =>
                  have h3 := hcb pc _ _ _ heq3
                  simp only [] at h3
                  split at h
                  next e s5 heq5 =>
                    cases h
                    have h5 := posMono_end_of_contents _ _ _ heq5
                    simp only [] at h5
                    omega
                  next u s5 heq5 =>
                    have h5 := posMono_end_of_contents _ _ _ heq5
                    simp only [] at h5
                    cases h
                    simp only []
                    omega

theorem modePres_read_identifier : ModePres read_identifier :=
  modePres_of_onlyPos onlyPos_read_identifier

theorem modePres_read_length : ModePres read_length :=
  modePres_of_onlyPos onlyPos_read_length

theorem modePres_end_of_buf : ModePres end_of_buf :=
  modePres_of_onlyPos onlyPos_end_of_buf

theorem modePres_end_of_contents : ModePres end_of_contents :=
  modePres_of_onlyPos onlyPos_end_of_contents

theorem modePres_read_general {α : Type} (tag : Tag) (cb : PC → M α)
    (hcb : ∀ pc, ModePres (cb pc)) : ModePres (read_general tag cb) := by
  intro s r s' h
  unfold read_general at h
  split at h
  · cases h; rfl
  next hd =>
    split at h
    next e s1 heq => cases h; exact modePres_read_identifier _ _ _ heq
    next t2 pc s1 heq =>
      have h1 := modePres_read_identifier _ _ _ heq
      split at h
      · cases h; exact h1
      next hne =>
        split at h
        next e s2 heq2 =>
          cases h; exact (modePres_read_length _ _ _ heq2).trans h1
        next ls s2 heq2 =>
          have h2 := (modePres_read_length _ _ _ heq2).trans h1
          simp only [] at h
          split at h
          next len =>
            split at h
            · cases h; exact h2
            · split at h
              · cases h; exact h2
              · split at h
                next e s3 heq3 =>
                  cases h
                  have h3 := hcb pc _ _ _ heq3
                  simp only [] at h3
                  exact h3.trans h2
                next v3 s3 heq3 =>
                  have h3 := hcb pc _ _ _ heq3
                  simp only [] at h3
                  split at h
                  next e s5 heq5 =>
                    cases h
                    have h5 := modePres_end_of_buf _ _ _ heq5
                    simp only [] at h5
                    exact (h5.trans h3).trans h2
                  next u s5 heq5 =>
                    have h5 := modePres_end_of_buf _ _ _ heq5
                    simp only [] at h5
                    cases h
                    simp only []
                    exact (h5.trans h3).trans h2
          next =>
            split at h
            · cases h; exact h2
            · split at h
              · cases h; exact h2
              · split at h
                next e s3 heq3 =>
                  cases h
                  have h3 := hcb pc _ _ _ heq3
                  simp only [] at h3
                  exact h3.trans h2
                next v3 s3 heq3 =>
                  have h3 := hcb pc _ _ _ heq3
                  simp only [] at h3
                  split at h
                  next e s5 heq5 =>
                    cases h
                    have h5 := modePres_end_of_contents _ _ _ heq5
                    simp only [] at h5
                    exact (h5.trans h3).trans h2
                  next u s5 heq5 =>
                    have h5 := modePres_end_of_contents _ _ _ heq5
                    simp only [] at h5
                    cases h
                    simp only []
                    exact (h5.trans h3).trans h2

theorem read_general_ok_consumes {α : Type} (tag : Tag) (cb : PC → M α)
    (hcb : ∀ pc, PosMono (cb pc)) : OkConsumes (read_general tag cb) := by
  intro s v s' h
  unfold read_general at h
  split at h
  · cases h
  next hd =>
    split at h
    next e s1 heq => cases h
    next t2 pc s1 heq =>
      have h1 := read_identifier_ok_pos heq
      split at h
      · cases h
      next hne =>
        split at h
        next e s2 heq2 => cases h
        next ls s2 heq2 =>
          have h2 := posMono_read_length _ _ _ heq2
          simp only [] at h
          split at h
          next len =>
            split at h
            · cases h
            · split at h
              · cases h
              · split at h
                next e s3 heq3 => cases h
                next v3 s3 heq3 =>
                  have h3 := hcb pc _ _ _ heq3
                  simp only [] at h3
                  split at h
                  next e s5 heq5 => cases h
                  next u s5 heq5 =>
                    have h5 := posMono_end_of_buf _ _ _ heq5
                    simp only [] at h5
                    cases h
                    simp only []
                    omega
          next =>
            split at h
            · cases h
            · split at h
              · cases h
              · split at h
                next e s3 heq3 => cases h
                next v3 s3 heq3 =>
                  have h3 := hcb pc _ _ _ heq3
                  simp only [] at h3
                  split at h
                  next e s5 heq5 => cases h
                  next u s5 heq5 =>
                    have h5 := posMono_end_of_contents _ _ _ heq5
                    simp only [] at h5
                    cases h
                    simp only []
                    omega

theorem errT_read_general {α : Type} (tag : Tag) (cb : PC → M α)
    (hcb : ∀ pc, PosMono (cb pc)) : ErrT (read_general tag cb) := by
  intro s hmode e s' h hpos
  unfold read_general at h
  split at h
  next hd =>
    cases h
    exact ⟨.err .StackOverflow, by
      unfold read_general
      rw [if_pos (show BER_READER_STACK_DEPTH < (toBer s).depth from hd)]⟩
  next hd =>
    split at h
    next e1 s1 heq =>
      cases h
      exact ⟨e, by
        unfold read_general
        rw [if_neg (show ¬ BER_READER_STACK_DEPTH < (toBer s).depth from hd)]
        rw [mequiv_read_identifier _ _ _ heq]⟩
    next t2 pc s1 heq =>
      have h1 := read_identifier_ok_pos heq
      split at h
      next hne =>
        cases h
        refine ⟨.err .Invalid, ?_⟩
        unfold read_general
        rw [if_neg (show ¬ BER_READER_STACK_DEPTH < (toBer s).depth from hd)]
        rw [mequiv_read_identifier _ _ _ heq]
        simp only []
        rw [if_pos hne]
        rfl
      next hne =>
        split at h
        next e2 s2 heq2 =>
          cases h
          have h2 := posMono_read_length _ _ _ heq2
          omega
        next ls s2 heq2 =>
          have h2 := read_length_ok_pos heq2
          simp only [] at h
          split at h
          next len =>
            split at h
            · cases h; omega
            · split at h
              · cases h; omega
              · split at h
                next e3 s3 heq3 =>
                  cases h
                  have h3 := hcb pc _ _ _ heq3
                  simp only [] at h3
                  omega
                next v3 s3 heq3 =>
                  have h3 := hcb pc _ _ _ heq3
                  simp only [] at h3
                  split at h
                  next e5 s5 heq5 =>
                    cases h
                    have h5 := posMono_end_of_buf _ _ _ heq5
                    simp only [] at h5
                    omega
                  next u s5 heq5 => cases h
          next =>
            split at h
            · cases h; omega
            · split at h
              · cases h; omega
              · split at h
                next e3 s3 heq3 =>
                  cases h
                  have h3 := hcb pc _ _ _ heq3
                  simp only [] at h3
                  omega
                next v3 s3 heq3 =>
                  have h3 := hcb pc _ _ _ heq3
                  simp only [] at h3
                  split at h
                  next e5 s5 heq5 =>
                    cases h
                    have h5 := posMono_end_of_contents _ _ _ heq5
                    simp only [] at h5
                    omega
                  next u s5 heq5 => cases h

/-- The transport bundle for a decoder computation: monotone cursor,
untouched mode, and both Der-to-Ber transports. -/
structure Good {α : Type} (c : M α) : Prop where
  mono : PosMono c
  mode : ModePres c
  okT : OkT c
  errT : ErrT c

theorem good_ret {α : Type} (a : α) : Good (M.ret a) := by
  refine ⟨?_, ?_, ?_, ?_⟩
  · intro s r s' h; cases h; exact le_refl _
  · intro s r s' h; cases h; rfl
  · intro s _ v s' h; cases h; rfl
  · intro s _ e s' h _; cases h

theorem good_bind {α β : Type} {c : M α} {k : α → M β}
    (hc : Good c) (hk : ∀ a, Good (k a)) : Good (M.bind c k) := by
  refine ⟨?_, ?_, ?_, ?_⟩
  · intro s r s' h
    unfold M.bind at h
    split at h
    next a s1 heq =>
      exact le_trans (hc.mono _ _ _ heq) ((hk a).mono _ _ _ h)
    next e s1 heq => cases h; exact hc.mono _ _ _ heq
  · intro s r s' h
    unfold M.bind at h
    split at h
    next a s1 heq =>
      exact ((hk a).mode _ _ _ h).trans (hc.mode _ _ _ heq)
    next e s1 heq => cases h; exact hc.mode _ _ _ heq
  · intro s hmode v s' h
    unfold M.bind at h ⊢
    split at h
    next a s1 heq =>
      rw [hc.okT s hmode a s1 heq]
      have hm1 : s1.mode = BERMode.Der := by rw [hc.mode _ _ _ heq]; exact hmode
      exact (hk a).okT s1 hm1 v s' h
    next e s1 heq => cases h
  · intro s hmode e s' h hpos
    unfold M.bind at h
    split at h
    next a s1 heq =>
      have hm1 : s1.mode = BERMode.Der := by rw [hc.mode _ _ _ heq]; exact hmode
      have hp1 : s.pos ≤ s1.pos := hc.mono _ _ _ heq
      have hp2 : s1.pos ≤ s'.pos := (hk a).mono _ _ _ h
      have hp0 : s1.pos = s.pos := by omega
      obtain ⟨e', he'⟩ := (hk a).errT s1 hm1 e s' h (by omega)
      refine ⟨e', ?_⟩
      unfold M.bind
      rw [hc.okT s hmode a s1 heq]
      exact he'
    next e1 s1 heq =>
      cases h
      obtain ⟨e', he'⟩ := hc.errT s hmode _ _ heq hpos
      refine ⟨e', ?_⟩
      unfold M.bind
      rw [he']

theorem okConsumes_bind {α β : Type} {c : M α} {k : α → M β}
    (hc : OkConsumes c) (hk : ∀ a, PosMono (k a)) : OkConsumes (M.bind c k) := by
  intro s v s' h
  unfold M.bind at h
  split at h
  next a s1 heq =>
    have := hc s a s1 heq
    have := hk a _ _ _ h
    omega
  next e s1 heq => cases h

theorem good_read_optional {α : Type} {c : M α} (hc : Good c) :
    Good (read_optional c) := by
  refine ⟨?_, ?_, ?_, ?_⟩
  · intro s r s' h
    unfold read_optional at h
    split at h
    next v s1 heq => cases h; exact hc.mono _ _ _ heq
    next e s1 heq =>
      split at h <;> cases h <;> exact hc.mono _ _ _ heq
  · intro s r s' h
    unfold read_optional at h
    split at h
    next v s1 heq => cases h; exact hc.mode _ _ _ heq
    next e s1 heq =>
      split at h <;> cases h <;> exact hc.mode _ _ _ heq
  · intro s hmode v s' h
    unfold read_optional at h ⊢
    split at h
    next v1 s1 heq =>
      rw [hc.okT s hmode v1 s1 heq]
      cases h
      rfl
    next e s1 heq =>
      split at h
      next hp =>
        obtain ⟨e', he'⟩ := hc.errT s hmode e s1 heq hp.symm
        rw [he']
        simp only []
        rw [if_pos (show (toBer s).pos = (toBer s1).pos from hp)]
        cases h
        rfl
      next hp => cases h
  · intro s hmode e s' h hpos
    unfold read_optional at h
    split at h
    next v1 s1 heq => cases h
    next e1 s1 heq =>
      split at h
      next hp => cases h
      next hp => cases h; exact absurd hpos.symm hp

theorem good_read_default {α : Type} [DecidableEq α] (d : α) {c : M α}
    (hc : Good c) (hcons : OkConsumes c) : Good (read_default d c) := by
  have hopt := good_read_optional hc
  refine ⟨?_, ?_, ?_, ?_⟩
  · intro s r s' h
    unfold read_default at h
    split at h
    next e s1 heq => cases h; exact hopt.mono _ _ _ heq
    next rr s1 heq =>
      split at h <;> cases h <;> exact hopt.mono _ _ _ heq
    next s1 heq => cases h; exact hopt.mono _ _ _ heq
  · intro s r s' h
    unfold read_default at h
    split at h
    next e s1 heq => cases h; exact hopt.mode _ _ _ heq
    next rr s1 heq =>
      split at h <;> cases h <;> exact hopt.mode _ _ _ heq
    next s1 heq => cases h; exact hopt.mode _ _ _ heq
  · intro s hmode v s' h
    unfold read_default at h ⊢
    split at h
    next e s1 heq => cases h
    next rr s1 heq =>
      rw [hopt.okT s hmode (some rr) s1 heq]
      simp only []
      split at h
      next hder => cases h
      next hder =>
        rw [if_neg (show ¬ ((toBer s1).mode = BERMode.Der ∧ rr = d) from
          fun hcon => by exact absurd hcon.1 (by simp [toBer]))]
        cases h
        rfl
    next s1 heq =>
      rw [hopt.okT s hmode none s1 heq]
      cases h
      rfl
  · intro s hmode e s' h hpos
    unfold read_default at h
    split at h
    next e1 s1 heq =>
      cases h
      obtain ⟨e', he'⟩ := hopt.errT s hmode _ _ heq hpos
      refine ⟨e', ?_⟩
      unfold read_default
      rw [he']
    next rr s1 heq =>
      split at h
      next hder =>
        have hcb : c s = (.ok rr, s1) := by
          unfold read_optional at heq
          split at heq
          next v1 sx heqc =>
            cases heq
            exact heqc
          next e1 sx heqc =>
            split at heq <;> cases heq
        have hlt := hcons s rr s1 hcb
        cases h
        omega
      next hder => cases h
    next s1 heq => cases h

/-- The Constructed-only wrappers (read_tagged, read_sequence, read_set) are
read_general with a PC guard in front of the inner computation. -/
theorem good_guarded_general {α : Type} (tg : Tag) (c : M α) (hc : Good c) :
    Good (read_general tg (fun pc s =>
      if pc ≠ PC.Constructed then ((.error (.err .Invalid), s) : Except Fault α × RState)
      else c s)) := by
  have hmono : ∀ pc, PosMono (fun s =>
      if pc ≠ PC.Constructed then ((.error (.err .Invalid), s) : Except Fault α × RState)
      else c s) := by
    intro pc s r s' h
    simp only [] at h
    by_cases hpc : pc ≠ PC.Constructed
    · rw [if_pos hpc] at h; cases h; exact le_refl _
    · rw [if_neg hpc] at h; exact hc.mono _ _ _ h
  have hmode : ∀ pc, ModePres (fun s =>
      if pc ≠ PC.Constructed then ((.error (.err .Invalid), s) : Except Fault α × RState)
      else c s) := by
    intro pc s r s' h
    simp only [] at h
    by_cases hpc : pc ≠ PC.Constructed
    · rw [if_pos hpc] at h; cases h; rfl
    · rw [if_neg hpc] at h; exact hc.mode _ _ _ h
  have hokT : ∀ pc, OkT (fun s =>
      if pc ≠ PC.Constructed then ((.error (.err .Invalid), s) : Except Fault α × RState)
      else c s) := by
    intro pc s hm v s' h
    simp only [] at h ⊢
    by_cases hpc : pc ≠ PC.Constructed
    · rw [if_pos hpc] at h; cases h
    · rw [if_neg hpc] at h ⊢; exact hc.okT _ hm _ _ h
  exact ⟨posMono_read_general tg _ hmono, modePres_read_general tg _ hmode,
    okT_read_general tg _ hokT, errT_read_general tg _ hmono⟩

theorem consumes_guarded_general {α : Type} (tg : Tag) (c : M α) (hc : Good c) :
    OkConsumes (read_general tg (fun pc s =>
      if pc ≠ PC.Constructed then ((.error (.err .Invalid), s) : Except Fault α × RState)
      else c s)) := by
  apply read_general_ok_consumes
  intro pc s r s' h
  simp only [] at h
  by_cases hpc : pc ≠ PC.Constructed
  · rw [if_pos hpc] at h; cases h; exact le_refl _
  · rw [if_neg hpc] at h; exact hc.mono _ _ _ h

/-- DER acceptance of a boolean body is also BER acceptance. -/
theorem bool_decode_der_ber {buf : List Nat} {v : Bool}
    (h : bool_decode .Der buf = .ok v) : bool_decode .Ber buf = .ok v := by
  unfold bool_decode at h ⊢
  split at h
  next b =>
    split at h
    next hc => cases h
    next hc =>
      rw [if_neg (show ¬ (BERMode.Ber = BERMode.Der ∧ b ≠ 0 ∧ b ≠ 255) from
        fun hcon => by cases hcon.1)]
      exact h
  next => cases h

/-- Property triple for the primitive-only callbacks that fetch the body and
run a pure decode on it. -/
theorem fetch_cb_props {β : Type} (f : BERMode → List Nat → Except Fault β)
    (hf : ∀ buf v, f BERMode.Der buf = .ok v → f BERMode.Ber buf = .ok v) :
    ∀ pc, PosMono (fun s =>
        if pc ≠ PC.Primitive then ((.error (.err .Invalid), s) : Except Fault β × RState)
        else match fetch_remaining_buffer s with
          | (.error e, s1) => (.error e, s1)
          | (.ok buf, s1) => (f s1.mode buf, s1)) ∧
      ModePres (fun s =>
        if pc ≠ PC.Primitive then ((.error (.err .Invalid), s) : Except Fault β × RState)
        else match fetch_remaining_buffer s with
          | (.error e, s1) => (.error e, s1)
          | (.ok buf, s1) => (f s1.mode buf, s1)) ∧
      OkT (fun s =>
        if pc ≠ PC.Primitive then ((.error (.err .Invalid), s) : Except Fault β × RState)
        else match fetch_remaining_buffer s with
          | (.error e, s1) => (.error e, s1)
          | (.ok buf, s1) => (f s1.mode buf, s1)) := by
  intro pc
  refine ⟨?_, ?_, ?_⟩
  · intro s r s' h
    simp only [] at h
    split at h
    · cases h; exact le_refl _
    · split at h
      next e s1 heq => cases h; exact posMono_fetch _ _ _ heq
      next buf s1 heq => cases h; exact posMono_fetch _ _ _ heq
  · intro s r s' h
    simp only [] at h
    split at h
    · cases h; rfl
    · split at h
      next e s1 heq =>
        cases h; exact modePres_of_onlyPos onlyPos_fetch _ _ _ heq
      next buf s1 heq =>
        cases h; exact modePres_of_onlyPos onlyPos_fetch _ _ _ heq
  · intro s hmode v s' h
    simp only [] at h ⊢
    split at h
    · cases h
    next hpc =>
      rw [if_neg hpc]
      split at h
      next e s1 heq => cases h
      next buf s1 heq =>
        rw [mequiv_fetch _ _ _ heq]
        simp only [toBer_mode]
        have hm1 : s1.mode = BERMode.Der := by
          rw [modePres_of_onlyPos onlyPos_fetch _ _ _ heq]; exact hmode
        have hfok : f s1.mode buf = .ok v := by
          have := congrArg Prod.fst h
          simpa using this
        have hs1 : s1 = s' := by
          have := congrArg Prod.snd h
          simpa using this
        rw [hf buf v (hm1 ▸ hfok)]
        rw [hs1]

/-- Property triple for the bit-string callback (Constructed guard). -/
theorem bits_cb_props :
    ∀ pc, PosMono (bits_cb pc) ∧ ModePres (bits_cb pc) ∧ OkT (bits_cb pc) := by
  intro pc
  refine ⟨?_, ?_, ?_⟩
  · intro s r s' h
    unfold bits_cb at h
    split at h
    · cases h; exact le_refl _
    · split at h
      next e s1 heq => cases h; exact posMono_fetch _ _ _ heq
      next buf s1 heq => cases h; exact posMono_fetch _ _ _ heq
  · intro s r s' h
    unfold bits_cb at h
    split at h
    · cases h; rfl
    · split at h
      next e s1 heq =>
        cases h; exact modePres_of_onlyPos onlyPos_fetch _ _ _ heq
      next buf s1 heq =>
        cases h; exact modePres_of_onlyPos onlyPos_fetch _ _ _ heq
  · intro s hmode v s' h
    unfold bits_cb at h ⊢
    split at h
    · cases h
    next hpc =>
      rw [if_neg hpc]
      split at h
      next e s1 heq => cases h
      next buf s1 heq =>
        rw [mequiv_fetch _ _ _ heq]
        have hfok : bits_decode buf = .ok v := by
          have := congrArg Prod.fst h
          simpa using this
        have hs1 : s1 = s' := by
          have := congrArg Prod.snd h
          simpa using this
        simp only []
        rw [hfok, hs1]

theorem good_read_bool (imp : Option Tag) : Good (read_bool imp) := by
  have hp := fetch_cb_props (fun m buf => bool_decode m buf)
    (fun buf v h => bool_decode_der_ber h)
  exact ⟨posMono_read_general _ _ (fun pc => (hp pc).1),
    modePres_read_general _ _ (fun pc => (hp pc).2.1),
    okT_read_general _ _ (fun pc => (hp pc).2.2),
    errT_read_general _ _ (fun pc => (hp pc).1)⟩

theorem consumes_read_bool (imp : Option Tag) : OkConsumes (read_bool imp) := by
  have hp := fetch_cb_props (fun m buf => bool_decode m buf)
    (fun buf v h => bool_decode_der_ber h)
  exact read_general_ok_consumes _ _ (fun pc => (hp pc).1)

theorem good_read_i64 (imp : Option Tag) : Good (read_i64 imp) := by
  have hp := fetch_cb_props (fun _ buf => i64_decode buf) (fun buf v h => h)
  exact ⟨posMono_read_general _ _ (fun pc => (hp pc).1),
    modePres_read_general _ _ (fun pc => (hp pc).2.1),
    okT_read_general _ _ (fun pc => (hp pc).2.2),
    errT_read_general _ _ (fun pc => (hp pc).1)⟩

theorem consumes_read_i64 (imp : Option Tag) : OkConsumes (read_i64 imp) := by
  have hp := fetch_cb_props (fun _ buf => i64_decode buf) (fun buf v h => h)
  exact read_general_ok_consumes _ _ (fun pc => (hp pc).1)

theorem good_read_null (imp : Option Tag) : Good (read_null imp) := by
  have hp := fetch_cb_props (fun _ buf => null_decode buf) (fun buf v h => h)
  exact ⟨posMono_read_general _ _ (fun pc => (hp pc).1),
    modePres_read_general _ _ (fun pc => (hp pc).2.1),
    okT_read_general _ _ (fun pc => (hp pc).2.2),
    errT_read_general _ _ (fun pc => (hp pc).1)⟩

theorem consumes_read_null (imp : Option Tag) : OkConsumes (read_null imp) := by
  have hp := fetch_cb_props (fun _ buf => null_decode buf) (fun buf v h => h)
  exact read_general_ok_consumes _ _ (fun pc => (hp pc).1)

theorem good_read_oid (imp : Option Tag) : Good (read_oid imp) := by
  have hp := fetch_cb_props (fun _ buf => oid_decode buf) (fun buf v h => h)
  exact ⟨posMono_read_general _ _ (fun pc => (hp pc).1),
    modePres_read_general _ _ (fun pc => (hp pc).2.1),
    okT_read_general _ _ (fun pc => (hp pc).2.2),
    errT_read_general _ _ (fun pc => (hp pc).1)⟩

theorem consumes_read_oid (imp : Option Tag) : OkConsumes (read_oid imp) := by
  have hp := fetch_cb_props (fun _ buf => oid_decode buf) (fun buf v h => h)
  exact read_general_ok_consumes _ _ (fun pc => (hp pc).1)

theorem good_read_bitstring (imp : Option Tag) : Good (read_bitstring imp) := by
  exact ⟨posMono_read_general _ _ (fun pc => (bits_cb_props pc).1),
    modePres_read_general _ _ (fun pc => (bits_cb_props pc).2.1),
    okT_read_general _ _ (fun pc => (bits_cb_props pc).2.2),
    errT_read_general _ _ (fun pc => (bits_cb_props pc).1)⟩

theorem consumes_read_bitstring (imp : Option Tag) : OkConsumes (read_bitstring imp) :=
  read_general_ok_consumes _ _ (fun pc => (bits_cb_props pc).1)

theorem posMono_read_optional {α : Type} {c : M α} (hm : PosMono c) :
    PosMono (read_optional c) := by
  intro s r s' h
  unfold read_optional at h
  split at h
  next v s1 heq => cases h; exact hm _ _ _ heq
  next e s1 heq => split at h <;> cases h <;> exact hm _ _ _ heq

theorem modePres_read_optional {α : Type} {c : M α} (hm : ModePres c) :
    ModePres (read_optional c) := by
  intro s r s' h
  unfold read_optional at h
  split at h
  next v s1 heq => cases h; exact hm _ _ _ heq
  next e s1 heq => split at h <;> cases h <;> exact hm _ _ _ heq

theorem bytes_loop_props {child : M (List Nat)} (hm : PosMono child)
    (hmo : ModePres child) :
    ∀ lf, PosMono (bytes_loop child lf) ∧ ModePres (bytes_loop child lf) := by
  intro lf
  induction lf with
  | zero =>
    constructor
    · intro s r s' h
      unfold bytes_loop at h
      cases h; exact le_refl _
    · intro s r s' h
      unfold bytes_loop at h
      cases h; rfl
  | succ n ih =>
    constructor
    · intro s r s' h
      unfold bytes_loop at h
      split at h
      next e s1 heq => cases h; exact posMono_read_optional hm _ _ _ heq
      next s1 heq => cases h; exact posMono_read_optional hm _ _ _ heq
      next chunk s1 heq =>
        have h1 := posMono_read_optional hm _ _ _ heq
        split at h <;> cases h <;> exact le_trans h1 (ih.1 _ _ _ ‹_›)
    · intro s r s' h
      unfold bytes_loop at h
      split at h
      next e s1 heq => cases h; exact modePres_read_optional hmo _ _ _ heq
      next s1 heq => cases h; exact modePres_read_optional hmo _ _ _ heq
      next chunk s1 heq =>
        have h1 := modePres_read_optional hmo _ _ _ heq
        split at h <;> cases h <;> exact (ih.2 _ _ _ ‹_›).trans h1

theorem bytes_props : ∀ (fuel : Nat) (tg : Tag),
    PosMono (read_bytes_impl tg fuel) ∧ ModePres (read_bytes_impl tg fuel) ∧
    OkT (read_bytes_impl tg fuel) ∧ ErrT (read_bytes_impl tg fuel) := by
  intro fuel
  induction fuel with
  | zero =>
    intro tg
    refine ⟨?_, ?_, ?_, ?_⟩
    · intro s r s' h
      unfold read_bytes_impl at h
      cases h; exact le_refl _
    · intro s r s' h
      unfold read_bytes_impl at h
      cases h; rfl
    · intro s _ v s' h
      unfold read_bytes_impl at h
      cases h
    · intro s _ e s' h _
      unfold read_bytes_impl at h
      cases h
      exact ⟨.err .Invalid, by unfold read_bytes_impl; rfl⟩
  | succ f ih =>
    intro tg
    have hloop := bytes_loop_props (ih TAG_OCTETSTRING).1 (ih TAG_OCTETSTRING).2.1
    have hcbm : ∀ pc, PosMono ((fun pc s =>
        match pc with
        | PC.Constructed =>
          if s.mode = BERMode.Der then ((.error (.err .Invalid), s) : Except Fault (List Nat) × RState)
          else bytes_loop (read_bytes_impl TAG_OCTETSTRING f) (f + 1) s
        | PC.Primitive =>
          match fetch_remaining_buffer s with
          | (.error e, s1) => (.error e, s1)
          | (.ok buf, s1) => (.ok buf, s1)) pc) := by
      intro pc s r s' h
      cases pc
      · simp only [] at h
        split at h
        next e s1 heq => cases h; exact posMono_fetch _ _ _ heq
        next buf s1 heq => cases h; exact posMono_fetch _ _ _ heq
      · simp only [] at h
        split at h
        · cases h; exact le_refl _
        · exact (hloop (f + 1)).1 _ _ _ h
    have hcbmo : ∀ pc, ModePres ((fun pc s =>
        match pc with
        | PC.Constructed =>
          if s.mode = BERMode.Der then ((.error (.err .Invalid), s) : Except Fault (List Nat) × RState)
          else bytes_loop (read_bytes_impl TAG_OCTETSTRING f) (f + 1) s
        | PC.Primitive =>
          match fetch_remaining_buffer s with
          | (.error e, s1) => (.error e, s1)
          | (.ok buf, s1) => (.ok buf, s1)) pc) := by
      intro pc s r s' h
      cases pc
      · simp only [] at h
        split at h
        next e s1 heq => cases h; exact modePres_of_onlyPos onlyPos_fetch _ _ _ heq
        next buf s1 heq => cases h; exact modePres_of_onlyPos onlyPos_fetch _ _ _ heq
      · simp only [] at h
        split at h
        · cases h; rfl
        · exact (hloop (f + 1)).2 _ _ _ h
    have hcbok : ∀ pc, OkT ((fun pc s =>
        match pc with
        | PC.Constructed =>
          if s.mode = BERMode.Der then ((.error (.err .Invalid), s) : Except Fault (List Nat) × RState)
          else bytes_loop (read_bytes_impl TAG_OCTETSTRING f) (f + 1) s
        | PC.Primitive =>
          match fetch_remaining_buffer s with
          | (.error e, s1) => (.error e, s1)
          | (.ok buf, s1) => (.ok buf, s1)) pc) := by
      intro pc s hmode v s' h
      cases pc
      · simp only [] at h ⊢
        split at h
        next e s1 heq => cases h
        next buf s1 heq =>
          rw [mequiv_fetch _ _ _ heq]
          cases h
          rfl
      · simp only [] at h ⊢
        rw [if_pos hmode] at h
        cases h
    refine ⟨posMono_read_general _ _ hcbm, modePres_read_general _ _ hcbmo,
      okT_read_general _ _ hcbok, errT_read_general _ _ hcbm⟩

theorem bytes_consumes : ∀ (fuel : Nat) (tg : Tag),
    OkConsumes (read_bytes_impl tg fuel) := by
  intro fuel tg
  cases fuel with
  | zero =>
    intro s v s' h
    unfold read_bytes_impl at h
    cases h
  | succ f =>
    have hloop := bytes_loop_props (bytes_props f TAG_OCTETSTRING).1
      (bytes_props f TAG_OCTETSTRING).2.1
    apply read_general_ok_consumes
    intro pc s r s' h
    cases pc
    · simp only [] at h
      split at h
      next e s1 heq => cases h; exact posMono_fetch _ _ _ heq
      next buf s1 heq => cases h; exact posMono_fetch _ _ _ heq
    · simp only [] at h
      split at h
      · cases h; exact le_refl _
      · exact (hloop (f + 1)).1 _ _ _ h

theorem good_interp (fuel : Nat) : ∀ {b : Bool} (p : Prog b) (imp : Option Tag),
    Good (interp fuel p imp) ∧ (b = true → OkConsumes (interp fuel p imp)) := by
  intro b p
  induction p with
  | pBool =>
    intro imp
    exact ⟨good_bind (good_read_bool imp) (fun a => good_ret _),
      fun _ => okConsumes_bind (consumes_read_bool imp) (fun a => (good_ret _).mono)⟩
  | pI64 =>
    intro imp
    exact ⟨good_bind (good_read_i64 imp) (fun a => good_ret _),
      fun _ => okConsumes_bind (consumes_read_i64 imp) (fun a => (good_ret _).mono)⟩
  | pBits =>
    intro imp
    exact ⟨good_bind (good_read_bitstring imp) (fun a => good_ret _),
      fun _ => okConsumes_bind (consumes_read_bitstring imp) (fun a => (good_ret _).mono)⟩
  | pBytes =>
    intro imp
    have hb := bytes_props fuel (imp.getD TAG_OCTETSTRING)
    exact ⟨good_bind ⟨hb.1, hb.2.1, hb.2.2.1, hb.2.2.2⟩ (fun a => good_ret _),
      fun _ => okConsumes_bind (bytes_consumes fuel _) (fun a => (good_ret _).mono)⟩
  | pNull =>
    intro imp
    exact ⟨good_bind (good_read_null imp) (fun a => good_ret _),
      fun _ => okConsumes_bind (consumes_read_null imp) (fun a => (good_ret _).mono)⟩
  | pOid =>
    intro imp
    exact ⟨good_bind (good_read_oid imp) (fun a => good_ret _),
      fun _ => okConsumes_bind (consumes_read_oid imp) (fun a => (good_ret _).mono)⟩
  | pTagged t p ih =>
    intro imp
    exact ⟨good_guarded_general (imp.getD t) _ (ih none).1,
      fun _ => consumes_guarded_general (imp.getD t) _ (ih none).1⟩
  | pImplicit t p ih =>
    intro imp
    exact ⟨(ih (some (imp.getD t))).1, fun _ => (ih (some (imp.getD t))).2 rfl⟩
  | pSeq q ih =>
    intro imp
    exact ⟨good_guarded_general (imp.getD TAG_SEQUENCE) _ (ih none).1,
      fun _ => consumes_guarded_general (imp.getD TAG_SEQUENCE) _ (ih none).1⟩
  | pSet q ih =>
    intro imp
    exact ⟨good_guarded_general (imp.getD TAG_SET) _ (ih none).1,
      fun _ => consumes_guarded_general (imp.getD TAG_SET) _ (ih none).1⟩
  | sNil =>
    intro imp
    exact ⟨good_ret _, fun h => Bool.noConfusion h⟩
  | sNext p rest ihp ihrest =>
    intro imp
    exact ⟨good_bind (ihp none).1 (fun a =>
        good_bind (ihrest none).1 (fun b => good_ret _)),
      fun h => Bool.noConfusion h⟩
  | sOpt p rest ihp ihrest =>
    intro imp
    exact ⟨good_bind (good_read_optional (ihp none).1) (fun a =>
        good_bind (ihrest none).1 (fun b => good_ret _)),
      fun h => Bool.noConfusion h⟩
  | sDefault d p rest ihp ihrest =>
    intro imp
    exact ⟨good_bind (good_read_default d (ihp none).1 ((ihp none).2 rfl)) (fun a =>
        good_bind (ihrest none).1 (fun b => good_ret _)),
      fun h => Bool.noConfusion h⟩

/-- Claim C7: for every decoder program built from the typed decode
operations (booleans, integers, bit and octet strings, null, object
identifiers, explicit and implicit tagging, sequences and sets with
optional and defaulted children) and every input, a successful DER parse is
also a successful BER parse with the same value.  Proved by transporting the
Der run across the mode switch: every engine operation is monotone in the
cursor, never writes the mode, and its Der successes and cursor-preserving
failures carry over to the Ber twin state. -/
theorem c7_der_implies_ber :
    ∀ (fuel : Nat) (p : Prog true) (input : List Nat) (v : Value),
      parse_der input (interp fuel p none) = .ok v →
      parse_ber input (interp fuel p none) = .ok v := by
  intro fuel p input v h
  obtain ⟨s', hrun⟩ := parse_ok_run h
  have hok := (good_interp fuel p none).1.okT (RState.new input .Der) rfl v s' hrun
  have hend2 : s'.pos = s'.buf.length := by
    have hc := parse_ok_consumed (interp fuel p none) input .Der v h
    rw [hrun] at hc
    simpa using hc
  unfold parse_ber parse_ber_general
  have hok' : interp fuel p none (RState.new input .Ber) = (.ok v, toBer s') := hok
  rw [hok']
  show (match end_of_buf (toBer s') with
        | (.error e, _) => (.error e : Except Fault Value)
        | (.ok _, _) => .ok v) = _
  unfold end_of_buf
  rw [if_neg (show ¬ (toBer s').pos ≠ (toBer s').buf.length from fun hc => hc hend2)]

/-- Witness for C7: the DER boolean 01 01 FF also parses in BER mode. -/
theorem c7_der_implies_ber_witness :
    parse_ber [1, 1, 255] (interp 1 .pBool none) = .ok (.vBool true) :=
  c7_der_implies_ber 1 .pBool [1, 1, 255] (.vBool true) (by decide)
